import Mathlib

/-!
# NuBus disk-image pseudo-card

A shallow embedding of `src/devices/bus/nubus/nubus_image.cpp`: the backing
image store (`messimg_disk_image_device`), the register handlers of
`nubus_image_device` and the two host-file transfer channels they drive.

Conventions of the embedding

* 32-bit bus values are natural numbers; every place where the C++ code
  truncates or wraps is written with an explicit modulus.
* A byte is a `Fin 256`; buffers, host files and strings are lists of bytes.
* An access whose behaviour the C++ language leaves undefined (indexing a
  buffer out of bounds, dereferencing a null buffer) yields `none`.
* What the host environment decides (whether an open succeeds, how many bytes
  a write accepts, whether the picker is still on screen, the contents of an
  uninitialised local) is an explicit argument of the handler.
* Declarations that live in `nubus_image.h` and in the emulator core, and are
  therefore not part of the translated file, are collected in `Decls`.
-/

namespace NubusImage

set_option maxRecDepth 100000

/-! ## Bytes and 32-bit words -/

/-- One octet of a buffer, a host file or a string. -/
abbrev Byte := Fin 256

/-- Truncation of a value to `uint8_t`. -/
def byteOf (n : Nat) : Byte := ⟨n % 256, Nat.mod_lt n (by decide)⟩

/-- The byte reversal written out in `image_super_w` and `image_super_r`:
`((d & 0xff) << 24) | ((d & 0xff00) << 8) | ((d & 0xff0000) >> 8) | ((d & 0xff000000) >> 24)`. -/
def bswap32 (d : Nat) : Nat :=
  ((d &&& 0xff) <<< 24) ||| ((d &&& 0xff00) <<< 8) |||
    ((d &&& 0xff0000) >>> 8) ||| ((d &&& 0xff000000) >>> 24)

/-- The operator `~` on a `uint32_t`. -/
def not32 (m : Nat) : Nat := 0xffffffff ^^^ m

/-- The four bytes that a `uint32_t` of value `w` occupies in host memory,
lowest address first, on a little-endian (`lsb_first`) or big-endian host. -/
def mem32 (lsb_first : Bool) (w : Nat) : List Byte :=
  if lsb_first then [byteOf w, byteOf (w / 2 ^ 8), byteOf (w / 2 ^ 16), byteOf (w / 2 ^ 24)]
  else [byteOf (w / 2 ^ 24), byteOf (w / 2 ^ 16), byteOf (w / 2 ^ 8), byteOf w]

/-- The value of the `uint32_t` stored in four bytes of host memory. -/
def val32 (lsb_first : Bool) : List Byte → Nat
  | [a, b, c, d] =>
    if lsb_first then a.val + 2 ^ 8 * b.val + 2 ^ 16 * c.val + 2 ^ 24 * d.val
    else d.val + 2 ^ 8 * c.val + 2 ^ 16 * b.val + 2 ^ 24 * a.val
  | _ => 0

/-- Modelled from the spec: `big_endianize_int32` of the emulator core, which
is not among the translated sources ("convert the 4-byte word to the channel's
wire byte order"): a byte reversal on a little-endian host, the identity on a
big-endian one. -/
def big_endianize_int32 (lsb_first : Bool) (x : Nat) : Nat :=
  if lsb_first then bswap32 x else x

/-- The declarations the handlers use but `nubus_image.cpp` does not contain:
the command enumeration and the context field types of `nubus_image.h`, the
picker result code, and the properties of the host platform. -/
structure Decls where
  kFileCmdGetDir : Nat
  kFileCmdSetDir : Nat
  kFileCmdGetFirstListing : Nat
  kFileCmdGetNextListing : Nat
  kFileCmdGetFile : Nat
  kFileCmdPutFile : Nat
  kFileCmdFileClose : Nat
  kFileCmdImportUI : Nat
  kFileCmdImportClose : Nat
  /-- The value of `(int)ui::menu_file_selector::result::FILE`. -/
  result_FILE : Int
  /-- The value of `(int)ui::menu_file_selector::result::INVALID`. -/
  result_INVALID : Int
  /-- The value of `sizeof(filectx.filename)`. -/
  filename_size : Nat
  /-- The number of values of the type of the `bytecount` fields. -/
  counter_mod : Nat
  /-- The number of values of `size_t`. -/
  size_mod : Nat
  /-- Whether plain `char` is a signed type. -/
  char_signed : Bool
  /-- Whether the host stores the least significant byte first. -/
  lsb_first : Bool
  /-- The bytes of `PATH_SEPARATOR`. -/
  path_separator : List Byte

/-- The command codes in the order of the `case` labels of `file_cmd_w`. -/
def Decls.codes (D : Decls) : List Nat :=
  [D.kFileCmdGetDir, D.kFileCmdSetDir, D.kFileCmdGetFirstListing, D.kFileCmdGetNextListing,
   D.kFileCmdGetFile, D.kFileCmdPutFile, D.kFileCmdFileClose, D.kFileCmdImportUI,
   D.kFileCmdImportClose]

/-- A concrete choice of the outside declarations, used to evaluate the
handlers on examples: consecutive command codes starting at 1, a 32-bit
transfer counter, a 64-bit little-endian host with signed `char`. -/
def sampleDecls : Decls where
  kFileCmdGetDir := 1
  kFileCmdSetDir := 2
  kFileCmdGetFirstListing := 3
  kFileCmdGetNextListing := 4
  kFileCmdGetFile := 5
  kFileCmdPutFile := 6
  kFileCmdFileClose := 7
  kFileCmdImportUI := 8
  kFileCmdImportClose := 9
  result_FILE := 0x1003
  result_INVALID := -1
  filename_size := 128
  counter_mod := 2 ^ 32
  size_mod := 2 ^ 64
  char_signed := true
  lsb_first := true
  path_separator := [47]

/-! ## The backing image store -/

/-- The outcome of `call_load`. -/
inductive image_init_result where
  | PASS
  | FAIL
deriving DecidableEq, Repr

/-- The data members of `messimg_disk_image_device`: `uint32_t m_size`,
`std::unique_ptr<uint8_t[]> m_data` (`none` is the null pointer) and
`bool m_ejected`. -/
structure messimg_disk_image_device where
  m_size : Nat
  m_data : Option (List Byte)
  m_ejected : Bool
deriving DecidableEq

/-- The constructor of `messimg_disk_image_device`. -/
def messimg_disk_image_device.init : messimg_disk_image_device :=
  { m_size := 0, m_data := none, m_ejected := false }

/-- The buffer after `make_unique_clear<uint8_t[]>(m_size)` followed by
`fread(m_data.get(), m_size)` from the start of the image file. -/
def fread_clear (file : List Byte) (m_size : Nat) : List Byte :=
  file.take m_size ++ List.replicate (m_size - (file.take m_size).length) 0

/-- `messimg_disk_image_device::call_load`, with the image file the device is
being mounted on: `ftell` after the seek to the end is the file length, a
64-bit quantity that the cast truncates to `uint32_t`. -/
def call_load (d : messimg_disk_image_device) (file : List Byte) :
    image_init_result × messimg_disk_image_device :=
  let m_size := file.length % 2 ^ 32
  if m_size > 256 * 1024 * 1024 then
    (image_init_result.FAIL, { d with m_size := 0 })
  else
    (image_init_result.PASS,
      { m_size := m_size, m_data := some (fread_clear file m_size), m_ejected := false })

/-- `messimg_disk_image_device::call_unload`: the first `m_size` bytes of the
buffer overwrite the start of the image file, then the size is cleared and the
buffer is kept. Writing from a null or too short buffer is undefined. -/
def call_unload (d : messimg_disk_image_device) (file : List Byte) :
    Option (messimg_disk_image_device × List Byte) :=
  if d.m_size = 0 then some ({ d with m_size := 0 }, file)
  else
    match d.m_data with
    | none => none
    | some buf =>
      if d.m_size ≤ buf.length then
        some ({ d with m_size := 0 }, buf.take d.m_size ++ file.drop d.m_size)
      else none

/-! ## The card state -/

/-- An open `osd_file`: the host file it refers to and whether it was opened
for writing. -/
structure osd_file where
  path : List Byte
  writable : Bool
deriving DecidableEq

/-- The host file system as far as the card sees it: the contents of the file
at each path, if there is one. -/
abbrev HostFiles := List Byte → Option (List Byte)

/-- The direct-transfer context `filectx`. -/
structure nbfilectx where
  curcmd : Nat
  filename : List Byte
  curdir : List Byte
  filenameoffset : Nat
  fd : Option osd_file
  filelen : Nat
  bytecount : Nat

/-- The import context `importctx`. -/
structure nbimportctx where
  dir : List Byte
  file : List Byte
  result : Int
  fd : Option osd_file
  filelen : Nat
  bytecount : Nat
  name_offset : Nat

/-- The state of a `nubus_image_device` together with the host files its
handles refer to. -/
structure nubus_image_device where
  m_image : messimg_disk_image_device
  filectx : nbfilectx
  importctx : nbimportctx
  lastcmd : Nat
  host : HostFiles

/-- What the host environment contributes to one register access. -/
structure Env where
  /-- Whether an `osd_file::open` issued by the access is granted. -/
  open_ok : Bool
  /-- The number of bytes the host accepts in a write issued by the access. -/
  write_accept : Nat
  /-- The result of `machine().ui().is_menu_active()`. -/
  menu_active : Bool
  /-- The value an uninitialised `uint32_t` local happens to hold. -/
  junk : Nat
  /-- The mouse coordinates reported by `find_mouse`. -/
  mouse_x : Nat
  mouse_y : Nat

/-! ## Host file primitives -/

/-- Modelled from the spec: `osd_file::write`, a generic host primitive outside
the translated sources ("write that many bytes at the current transferred
offset"): the bytes replace the file contents from `offset` on, the file grows
as needed and a gap before `offset` reads as zero. -/
def pwrite (c : List Byte) (offset : Nat) (bs : List Byte) : List Byte :=
  if bs = [] then c
  else
    let c0 := c ++ List.replicate (offset - c.length) 0
    c0.take offset ++ bs ++ c0.drop (offset + bs.length)

/-- Modelled from the spec: `osd_file::read` ("read up to 4 bytes at the
current transferred offset"): the bytes of the file from `offset` on, at most
`n` of them. -/
def pread (c : List Byte) (offset n : Nat) : List Byte :=
  (c.drop offset).take n

/-- Replace the contents of one host file. -/
def HostFiles.set (h : HostFiles) (p : List Byte) (c : List Byte) : HostFiles :=
  fun q => if q = p then some c else h q

/-- Modelled from the spec: `osd_file::open` with `OPEN_FLAG_READ` ("open host
file read-only; report an error if open fails, leaving the channel without a
handle"): succeeds when the host grants it and the file exists, and reports
the file length. -/
def osd_open_read (open_ok : Bool) (h : HostFiles) (p : List Byte) : Option (osd_file × Nat) :=
  if open_ok then
    match h p with
    | some c => some ({ path := p, writable := false }, c.length)
    | none => none
  else none

/-- Modelled from the spec: `osd_file::open` with
`OPEN_FLAG_WRITE|OPEN_FLAG_CREATE` ("open/create host file write-only"):
when the host grants it the file exists afterwards and is empty, a file that
was there before being truncated. -/
def osd_open_create (open_ok : Bool) (h : HostFiles) (p : List Byte) :
    Option (osd_file × HostFiles) :=
  if open_ok then some ({ path := p, writable := true }, h.set p []) else none

/-- The C string held in a byte array: the bytes before the first zero. -/
def cstr (buf : List Byte) : List Byte := buf.takeWhile (fun b => b ≠ 0)

/-- The path `curdir + PATH_SEPARATOR + filename` built by `GetFile` and
`PutFile`. -/
def fullpath (D : Decls) (c : nbfilectx) : List Byte :=
  cstr c.curdir ++ D.path_separator ++ cstr c.filename

/-- `nubus_image_device::device_start`, as far as it assigns card state: the
fields it does not assign keep whatever the object held before. -/
def device_start (D : Decls) (s : nubus_image_device) : nubus_image_device :=
  { s with
    filectx := { s.filectx with
      curdir := [46, 0]
      filename := List.replicate D.filename_size 0
      filenameoffset := 0
      fd := none }
    importctx := { s.importctx with
      dir := [46]
      file := []
      result := D.result_INVALID
      fd := none } }

/-! ## Register handlers: image size, status, super-slot window -/

/-- `nubus_image_device::image_status_w`. -/
def image_status_w (s : nubus_image_device) (_data : Nat) : nubus_image_device :=
  { s with m_image := { s.m_image with m_ejected := true } }

/-- `nubus_image_device::image_status_r`. -/
def image_status_r (s : nubus_image_device) : Nat :=
  if s.m_image.m_ejected then 0
  else if s.m_image.m_size ≠ 0 then 1
  else 0

/-- `nubus_image_device::image_w`. -/
def image_w (s : nubus_image_device) (_data : Nat) : nubus_image_device := s

/-- `nubus_image_device::image_r`. -/
def image_r (s : nubus_image_device) : Nat := s.m_image.m_size

/-- The element `image[offset]` of the buffer viewed as `uint32_t*`; `none`
when the four bytes are not all inside the buffer. -/
def load32 (lsb_first : Bool) (buf : List Byte) (offset : Nat) : Option Nat :=
  if 4 * offset + 4 ≤ buf.length then some (val32 lsb_first ((buf.drop (4 * offset)).take 4))
  else none

/-- The buffer after the assignment `image[offset] = w`; `none` when the four
bytes are not all inside the buffer. -/
def store32 (lsb_first : Bool) (buf : List Byte) (offset w : Nat) : Option (List Byte) :=
  if 4 * offset + 4 ≤ buf.length then
    some (buf.take (4 * offset) ++ mem32 lsb_first w ++ buf.drop (4 * offset + 4))
  else none

/-- Modelled from the spec: the `COMBINE_DATA` helper of the emulator core
("a masked read-modify-write at that offset: only masked bits are updated,
unmasked bits retain prior buffer contents"). -/
def COMBINE_DATA (old data mem_mask : Nat) : Nat :=
  (old &&& not32 mem_mask) ||| (data &&& mem_mask)

/-- `nubus_image_device::image_super_w`. -/
def image_super_w (D : Decls) (s : nubus_image_device) (offset data mem_mask : Nat) :
    Option nubus_image_device :=
  match s.m_image.m_data with
  | none => none
  | some image =>
    let data := bswap32 data
    let mem_mask := bswap32 mem_mask
    match load32 D.lsb_first image offset with
    | none => none
    | some old =>
      match store32 D.lsb_first image offset (COMBINE_DATA old data mem_mask) with
      | none => none
      | some image1 => some { s with m_image := { s.m_image with m_data := some image1 } }

/-- `nubus_image_device::image_super_r`. -/
def image_super_r (D : Decls) (s : nubus_image_device) (offset : Nat) : Option Nat :=
  match s.m_image.m_data with
  | none => none
  | some image =>
    match load32 D.lsb_first image offset with
    | none => none
    | some data => some (bswap32 data)

/-! ## Register handlers: command register -/

/-- `nubus_image_device::file_cmd_w`. The `switch` is an if-chain over the
case labels in source order; `open_ok` is the host's answer to the
`osd_file::open` of `GetFile` and `PutFile`. -/
def file_cmd_w (D : Decls) (open_ok : Bool) (s : nubus_image_device) (data : Nat) :
    nubus_image_device :=
  let s0 := { s with filectx := { s.filectx with curcmd := data } }
  let s1 : nubus_image_device :=
    if data = D.kFileCmdGetDir ∨ data = D.kFileCmdSetDir ∨ data = D.kFileCmdGetFirstListing
        ∨ data = D.kFileCmdGetNextListing then s0
    else if data = D.kFileCmdGetFile then
      match osd_open_read open_ok s0.host (fullpath D s0.filectx) with
      | some (fd, filelen) =>
        { s0 with filectx := { s0.filectx with fd := some fd, filelen := filelen, bytecount := 0 } }
      | none => { s0 with filectx := { s0.filectx with fd := none, bytecount := 0 } }
    else if data = D.kFileCmdPutFile then
      match osd_open_create open_ok s0.host (fullpath D s0.filectx) with
      | some (fd, host) =>
        { s0 with filectx := { s0.filectx with fd := some fd, bytecount := 0 }, host := host }
      | none => { s0 with filectx := { s0.filectx with fd := none, bytecount := 0 } }
    else if data = D.kFileCmdFileClose then
      { s0 with filectx := { s0.filectx with filenameoffset := 0, fd := none } }
    else if data = D.kFileCmdImportUI then
      { s0 with importctx := { s0.importctx with result := 0 } }
    else if data = D.kFileCmdImportClose then
      { s0 with importctx := { s0.importctx with fd := none } }
    else s0
  { s1 with lastcmd := data }

/-- `nubus_image_device::file_cmd_r`: the value read and the state after the
read. -/
def file_cmd_r (D : Decls) (open_ok menu_active : Bool) (s : nubus_image_device) :
    Nat × nubus_image_device :=
  if s.lastcmd = D.kFileCmdImportUI then
    let ret := (s.importctx.result % 2 ^ 32).toNat
    if s.importctx.result = D.result_FILE then
      let c0 := { s.importctx with name_offset := 0, bytecount := 0 }
      match osd_open_read open_ok s.host s.importctx.file with
      | some (fd, filelen) =>
        (ret, { s with importctx := { c0 with fd := some fd, filelen := filelen } })
      | none => (ret, { s with importctx := { c0 with fd := none } })
    else if ¬ menu_active then (0xffffffff, s)
    else (ret, s)
  else (0, s)

/-! ## Register handlers: data, length and name registers -/

/-- `nubus_image_device::file_data_w`; `write_accept` is the number of bytes
the host write takes. The sum `bytecount + count` wraps at the width of the
counter, the difference `filelen - bytecount` is truncated to the `uint32_t`
local `count`, and a `count` above 4 would read past the 4-byte `data`. -/
def file_data_w (D : Decls) (write_accept : Nat) (s : nubus_image_device) (data : Nat) :
    Option nubus_image_device :=
  match s.filectx.fd with
  | none => some s
  | some fd =>
    let data := big_endianize_int32 D.lsb_first data
    let count : Nat :=
      if (s.filectx.bytecount + 4) % D.counter_mod > s.filectx.filelen then
        (((s.filectx.filelen : Int) - (s.filectx.bytecount : Int)) % 2 ^ 32).toNat
      else 4
    if count > 4 then none
    else
      let actualcount := if fd.writable then min count write_accept else 0
      let host :=
        if fd.writable then
          s.host.set fd.path
            (pwrite ((s.host fd.path).getD []) s.filectx.bytecount
              ((mem32 D.lsb_first data).take actualcount))
        else s.host
      let bytecount := (s.filectx.bytecount + actualcount) % D.counter_mod
      some { s with
        filectx := { s.filectx with
          bytecount := bytecount
          fd := if bytecount ≥ s.filectx.filelen then none else some fd }
        host := host }

/-- `nubus_image_device::file_data_r`: the value read and the state after the
read. `junk` is what the uninitialised local `ret` holds before the host read
overwrites its first `actual` bytes. -/
def file_data_r (D : Decls) (junk : Nat) (s : nubus_image_device) : Nat × nubus_image_device :=
  match s.importctx.fd with
  | none => (0, s)
  | some fd =>
    let got := pread ((s.host fd.path).getD []) s.importctx.bytecount 4
    let actual := got.length
    let ret := val32 D.lsb_first (got ++ (mem32 D.lsb_first junk).drop actual)
    (big_endianize_int32 D.lsb_first ret,
      { s with importctx := { s.importctx with
          bytecount := (s.importctx.bytecount + actual) % D.counter_mod
          fd := if actual < 4 then none else some fd } })

/-- `nubus_image_device::file_len_w`. -/
def file_len_w (s : nubus_image_device) (data : Nat) : nubus_image_device :=
  { s with filectx := { s.filectx with filelen := data } }

/-- `nubus_image_device::file_len_r`: the 64-bit length truncated to the
32-bit bus value. -/
def file_len_r (s : nubus_image_device) : Nat := s.importctx.filelen % 2 ^ 32

/-- `nubus_image_device::file_name_w`; storing outside the array is undefined. -/
def file_name_w (s : nubus_image_device) (data : Nat) : Option nubus_image_device :=
  if s.filectx.filenameoffset < s.filectx.filename.length then
    some { s with filectx := { s.filectx with
      filename := s.filectx.filename.set s.filectx.filenameoffset (byteOf data)
      filenameoffset := s.filectx.filenameoffset + 1 } }
  else none

/-- The conversion of a `char` to `uint32_t`. -/
def char_to_u32 (char_signed : Bool) (b : Byte) : Nat :=
  if char_signed ∧ 128 ≤ b.val then 0xffffff00 + b.val else b.val

/-- `nubus_image_device::file_name_r`: the value read and the state after the
read. The bound `file.length() - dir.length() - 1` is computed in `size_t`;
`c_str()[i]` is the terminating zero at `i = length` and undefined beyond. -/
def file_name_r (D : Decls) (s : nubus_image_device) : Option (Nat × nubus_image_device) :=
  if s.lastcmd = 8 then
    let bound :=
      (((s.importctx.file.length : Int) - (s.importctx.dir.length : Int) - 1)
        % (D.size_mod : Int)).toNat
    if s.importctx.name_offset < bound then
      let i := s.importctx.name_offset + s.importctx.dir.length + 1
      if h : i < s.importctx.file.length then
        some (char_to_u32 D.char_signed (s.importctx.file.get ⟨i, h⟩),
          { s with importctx := { s.importctx with name_offset := s.importctx.name_offset + 1 } })
      else if i = s.importctx.file.length then
        some (0, { s with importctx := { s.importctx with
          name_offset := s.importctx.name_offset + 1 } })
      else none
    else some (0, s)
  else some (0, s)

/-- `nubus_image_device::mousepos_w`: shows or hides the host cursor, which is
no part of the card state. -/
def mousepos_w (s : nubus_image_device) (_data : Nat) : nubus_image_device := s

/-- `nubus_image_device::mousepos_r`. -/
def mousepos_r (x y : Nat) : Nat := ((x &&& 0xffff) <<< 16) ||| (y &&& 0xffff)

/-! ## All register accesses -/

/-- One guest access to a register window of the card. -/
inductive Access where
  | image_r
  | image_w (data : Nat)
  | image_status_r
  | image_status_w (data : Nat)
  | file_cmd_r
  | file_cmd_w (data : Nat)
  | file_data_r
  | file_data_w (data : Nat)
  | file_len_r
  | file_len_w (data : Nat)
  | file_name_r
  | file_name_w (data : Nat)
  | mousepos_r
  | mousepos_w (data : Nat)
  | image_super_r (offset : Nat)
  | image_super_w (offset data mem_mask : Nat)

/-- The value returned (0 for a write) and the state after one register
access; `none` when the access has undefined behaviour. -/
def access (D : Decls) (e : Env) (s : nubus_image_device) :
    Access → Option (Nat × nubus_image_device)
  | Access.image_r => some (image_r s, s)
  | Access.image_w data => some (0, image_w s data)
  | Access.image_status_r => some (image_status_r s, s)
  | Access.image_status_w data => some (0, image_status_w s data)
  | Access.file_cmd_r => some (file_cmd_r D e.open_ok e.menu_active s)
  | Access.file_cmd_w data => some (0, file_cmd_w D e.open_ok s data)
  | Access.file_data_r => some (file_data_r D e.junk s)
  | Access.file_data_w data => (file_data_w D e.write_accept s data).map (fun t => (0, t))
  | Access.file_len_r => some (file_len_r s, s)
  | Access.file_len_w data => some (0, file_len_w s data)
  | Access.file_name_r => file_name_r D s
  | Access.file_name_w data => (file_name_w s data).map (fun t => (0, t))
  | Access.mousepos_r => some (mousepos_r e.mouse_x e.mouse_y, s)
  | Access.mousepos_w data => some (0, mousepos_w s data)
  | Access.image_super_r offset => (image_super_r D s offset).map (fun v => (v, s))
  | Access.image_super_w offset data mem_mask =>
    (image_super_w D s offset data mem_mask).map (fun t => (0, t))

/-! ## The image subdevice seen from the card -/

/-- The card after its subdevice `m_image` has run `call_load` on an image
file, with the result of the load. -/
def image_call_load (s : nubus_image_device) (file : List Byte) :
    image_init_result × nubus_image_device :=
  ((call_load s.m_image file).1, { s with m_image := (call_load s.m_image file).2 })

/-- The card and the image file after its subdevice `m_image` has run
`call_unload`. -/
def image_call_unload (s : nubus_image_device) (file : List Byte) :
    Option (nubus_image_device × List Byte) :=
  (call_unload s.m_image file).map (fun r => ({ s with m_image := r.1 }, r.2))

/-- `messimg_disk_image_device::device_start`: the buffer pointer is cleared,
and when the image file exists its length, truncated to `uint32_t`, becomes
the tracked size. -/
def messimg_disk_image_device.device_start (d : messimg_disk_image_device)
    (file : Option (List Byte)) : messimg_disk_image_device :=
  match file with
  | some f => { d with m_data := none, m_size := f.length % 2 ^ 32 }
  | none => { d with m_data := none }

/-- The card after its subdevice `m_image` has run its `device_start`. -/
def image_device_start (s : nubus_image_device) (file : Option (List Byte)) :
    nubus_image_device :=
  { s with m_image := s.m_image.device_start file }

/-- A card for examples: freshly constructed image store, empty contexts, no
host files. -/
def sampleCard : nubus_image_device :=
  { m_image := messimg_disk_image_device.init,
    filectx := { curcmd := 0, filename := List.replicate 8 0, curdir := [46, 0],
                 filenameoffset := 0, fd := none, filelen := 0, bytecount := 0 },
    importctx := { dir := [46], file := [], result := 0, fd := none, filelen := 0,
                   bytecount := 0, name_offset := 0 },
    lastcmd := 0,
    host := fun _ => none }

/-- An environment for examples: opens are granted, writes are taken whole,
the picker is off screen. -/
def sampleEnv : Env :=
  { open_ok := true, write_accept := 4, menu_active := false, junk := 0xdeadbeef,
    mouse_x := 0, mouse_y := 0 }

/-! ## The interactive picker -/

/-- Modelled from the spec: the picker of `ui/filesel.h`, which is not among
the translated sources, completing with a selection ("selected: a path is
available"): through the references it was given it leaves the directory and
the selected path in the import context and the file-selected code in the
result slot. -/
def picker_select (D : Decls) (s : nubus_image_device) (dir file : List Byte) :
    nubus_image_device :=
  { s with importctx := { s.importctx with dir := dir, file := file, result := D.result_FILE } }

/-! ## Sequences of accesses -/

/-- One operation on the backing image store. -/
inductive StoreOp where
  | start (file : Option (List Byte))
  | load (file : List Byte)
  | unload (file : List Byte)
  | status_w (data : Nat)
  | super_w (offset data mem_mask : Nat)

/-- The card after one operation on its image store; `none` when the
operation has undefined behaviour. -/
def store_op (D : Decls) (s : nubus_image_device) : StoreOp → Option nubus_image_device
  | StoreOp.start file => some (image_device_start s file)
  | StoreOp.load file => some (image_call_load s file).2
  | StoreOp.unload file => (image_call_unload s file).map Prod.fst
  | StoreOp.status_w data => some (image_status_w s data)
  | StoreOp.super_w offset data mem_mask => image_super_w D s offset data mem_mask

/-- The card after a sequence of operations on its image store. -/
def store_run (D : Decls) : nubus_image_device → List StoreOp → Option nubus_image_device
  | s, [] => some s
  | s, op :: ops =>
    match store_op D s op with
    | none => none
    | some s1 => store_run D s1 ops

/-- The card after a sequence of register accesses, each made in its own host
environment and each permitted by `allowed` in the state it is made in;
`none` when an access is not permitted or has undefined behaviour. -/
def run (D : Decls) (allowed : nubus_image_device → Access → Bool) :
    nubus_image_device → List (Env × Access) → Option nubus_image_device
  | s, [] => some s
  | s, ea :: t =>
    if allowed s ea.2 then
      match access D ea.1 s ea.2 with
      | none => none
      | some r => run D allowed r.2 t
    else none

/-- Every access is permitted. -/
def any_access (_s : nubus_image_device) (_a : Access) : Bool := true

/-- The length register is written only while the direct channel has no open
handle; every other access is permitted. -/
def len_w_when_closed (s : nubus_image_device) : Access → Bool
  | Access.file_len_w _ => s.filectx.fd.isNone
  | _ => true

/-- The card after the values of a list have been written to the name
register one after the other. -/
def file_name_w_all : nubus_image_device → List Nat → Option nubus_image_device
  | s, [] => some s
  | s, v :: vs =>
    match file_name_w s v with
    | none => none
    | some s1 => file_name_w_all s1 vs

/-- The invariant of the direct channel: while its handle is open the
transferred count does not exceed the declared length. -/
def filectx_bounded (s : nubus_image_device) : Prop :=
  s.filectx.fd ≠ none → s.filectx.bytecount ≤ s.filectx.filelen

/-- The buffer of the image store is absent, or the tracked size is zero, or
the buffer is exactly as long as the tracked size. -/
def store_consistent (d : messimg_disk_image_device) : Prop :=
  d.m_data = none ∨ d.m_size = 0 ∨ d.m_data.map List.length = some d.m_size

/-! ## Sample states -/

/-- The sample card as `device_start` leaves it. -/
def startCard : nubus_image_device := device_start sampleDecls sampleCard

/-- A host with one file, `./a`, of eight bytes. -/
def sampleHost : HostFiles :=
  fun p => if p = [46, 47, 97] then some [1, 2, 3, 4, 5, 6, 7, 8] else none

/-- The sample card on `sampleHost` after the command 8 (`ImportUI` in
`sampleDecls`) and a selection of the file `./a` in the picker. -/
def selectedCard : nubus_image_device :=
  picker_select sampleDecls
    { file_cmd_w sampleDecls true startCard 8 with host := sampleHost } [46] [46, 47, 97]

/-- The sample card after a four-byte image was loaded, overwritten through
the super-slot window and unloaded. -/
def unloadedCard : nubus_image_device :=
  { sampleCard with
    m_image := { m_size := 0, m_data := some [0xaa, 0xbb, 0xcc, 0xdd], m_ejected := false } }

/-! ## Auxiliary definitions used in the statements and proofs -/

/-- Where bit `i` of a byte-reversed word comes from. -/
def swapIdx (i : Nat) : Nat :=
  if i < 8 then i + 24 else if i < 16 then i + 8 else if i < 24 then i - 8 else i - 24

/-! ## Bit-level facts about the byte reversal -/

theorem testBit_0xff (j : Nat) : (0xff : Nat).testBit j = decide (j < 8) := by
  have h : (0xff : Nat) = 2 ^ 8 - 1 := by norm_num
  rw [h, Nat.testBit_two_pow_sub_one]

theorem testBit_0xff00 (j : Nat) :
    (0xff00 : Nat).testBit j = (decide (8 ≤ j) && decide (j < 16)) := by
  have h : (0xff00 : Nat) = (2 ^ 8 - 1) <<< 8 := by decide
  rw [h, Nat.testBit_shiftLeft, Nat.testBit_two_pow_sub_one]
  by_cases h1 : 8 ≤ j <;> by_cases h2 : j < 16 <;> simp [h1, h2] <;> omega

theorem testBit_0xff0000 (j : Nat) :
    (0xff0000 : Nat).testBit j = (decide (16 ≤ j) && decide (j < 24)) := by
  have h : (0xff0000 : Nat) = (2 ^ 8 - 1) <<< 16 := by decide
  rw [h, Nat.testBit_shiftLeft, Nat.testBit_two_pow_sub_one]
  by_cases h1 : 16 ≤ j <;> by_cases h2 : j < 24 <;> simp [h1, h2] <;> omega

theorem testBit_0xff000000 (j : Nat) :
    (0xff000000 : Nat).testBit j = (decide (24 ≤ j) && decide (j < 32)) := by
  have h : (0xff000000 : Nat) = (2 ^ 8 - 1) <<< 24 := by decide
  rw [h, Nat.testBit_shiftLeft, Nat.testBit_two_pow_sub_one]
  by_cases h1 : 24 ≤ j <;> by_cases h2 : j < 32 <;> simp [h1, h2] <;> omega

theorem testBit_0xffffffff (j : Nat) : (0xffffffff : Nat).testBit j = decide (j < 32) := by
  have h : (0xffffffff : Nat) = 2 ^ 32 - 1 := by norm_num
  rw [h, Nat.testBit_two_pow_sub_one]

theorem testBit_bswap32 (d i : Nat) :
    (bswap32 d).testBit i = (decide (i < 32) && d.testBit (swapIdx i)) := by
  unfold bswap32 swapIdx
  simp only [Nat.testBit_or, Nat.testBit_shiftLeft, Nat.testBit_shiftRight, Nat.testBit_and,
    testBit_0xff, testBit_0xff00, testBit_0xff0000, testBit_0xff000000]
  by_cases h1 : i < 8
  · simp [h1, show ¬ (24 ≤ i) by omega, show ¬ (8 ≤ i) by omega, show i < 32 by omega,
      show ¬ (16 ≤ 8 + i) by omega, show 24 + i < 32 by omega, show i + 24 < 32 by omega,
      Nat.add_comm 24 i]
  · by_cases h2 : i < 16
    · simp [h1, h2, show ¬ (24 ≤ i) by omega, show (8 ≤ i) by omega, show i < 32 by omega,
        show i - 8 < 16 by omega, show ¬ (8 ≤ i - 8) by omega,
        show (16 ≤ 8 + i) by omega, show 8 + i < 24 by omega, show ¬ (24 + i < 32) by omega,
        show i + 8 < 24 by omega, Nat.add_comm 8 i]
    · by_cases h3 : i < 24
      · simp [h1, h2, h3, show ¬ (24 ≤ i) by omega, show (8 ≤ i) by omega, show i < 32 by omega,
          show i - 8 < 16 by omega, show 8 ≤ i - 8 by omega,
          show ¬ (8 + i < 24) by omega, show ¬ (24 + i < 32) by omega]
      · by_cases h4 : i < 32
        · simp [h1, h2, h3, h4, show (24 ≤ i) by omega, show (8 ≤ i) by omega,
            show i - 24 < 8 by omega, show ¬ (i - 8 < 16) by omega,
            show ¬ (8 + i < 24) by omega, show ¬ (24 + i < 32) by omega]
        · simp [h1, h2, h3, h4, show (24 ≤ i) by omega, show (8 ≤ i) by omega,
            show ¬ (i - 24 < 8) by omega, show ¬ (i - 8 < 16) by omega,
            show ¬ (8 + i < 24) by omega, show ¬ (24 + i < 32) by omega]

theorem bswap32_lt (d : Nat) : bswap32 d < 2 ^ 32 := by
  apply Nat.lt_pow_two_of_testBit
  intro i hi
  simp [testBit_bswap32, show ¬ (i < 32) by omega]

theorem swapIdx_lt {i : Nat} (h : i < 32) : swapIdx i < 32 := by
  unfold swapIdx; split_ifs <;> omega

theorem swapIdx_swapIdx {i : Nat} (h : i < 32) : swapIdx (swapIdx i) = i := by
  unfold swapIdx; split_ifs <;> omega

theorem testBit_of_lt32 {d i : Nat} (h : d < 2 ^ 32) (hi : ¬ i < 32) :
    d.testBit i = false := by
  apply Nat.testBit_lt_two_pow
  calc d < 2 ^ 32 := h
    _ ≤ 2 ^ i := Nat.pow_le_pow_right (by norm_num) (by omega)

/-- Reversing the bytes of the combined word is combining the reversed word
with the unreversed data and mask. -/
theorem bswap32_COMBINE_DATA (w V M : Nat) (hM : M < 2 ^ 32) :
    bswap32 (COMBINE_DATA w (bswap32 V) (bswap32 M))
      = (bswap32 w &&& not32 M) ||| (V &&& M) := by
  unfold COMBINE_DATA
  apply Nat.eq_of_testBit_eq
  intro i
  by_cases hi : i < 32
  · simp [testBit_bswap32, not32, hi, swapIdx_lt hi, swapIdx_swapIdx hi, testBit_0xffffffff,
      Nat.testBit_xor]
  · simp [testBit_bswap32, not32, hi, testBit_0xffffffff, Nat.testBit_xor,
      testBit_of_lt32 hM hi]

theorem COMBINE_DATA_lt (old data m : Nat) (ho : old < 2 ^ 32) (hd : data < 2 ^ 32) :
    COMBINE_DATA old data m < 2 ^ 32 := by
  unfold COMBINE_DATA
  exact Nat.or_lt_two_pow (Nat.lt_of_le_of_lt Nat.and_le_left ho)
    (Nat.lt_of_le_of_lt Nat.and_le_left hd)

/-! ## Words in host memory -/

theorem val32_lt (l : Bool) (bs : List Byte) : val32 l bs < 2 ^ 32 := by
  match bs with
  | [] => simp [val32]
  | [_] => simp [val32]
  | [_, _] => simp [val32]
  | [_, _, _] => simp [val32]
  | [a, b, c, d] =>
    have := a.isLt; have := b.isLt; have := c.isLt; have := d.isLt
    simp only [val32]; split_ifs <;> omega
  | _ :: _ :: _ :: _ :: _ :: _ => simp [val32]

theorem val32_mem32 (l : Bool) (w : Nat) (h : w < 2 ^ 32) : val32 l (mem32 l w) = w := by
  cases l <;> simp [val32, mem32, byteOf] <;> omega

theorem load32_store32 (l : Bool) (buf buf1 : List Byte) (offset w : Nat) (h : w < 2 ^ 32)
    (hs : store32 l buf offset w = some buf1) : load32 l buf1 offset = some w := by
  unfold store32 at hs
  split_ifs at hs with hb
  have e := Option.some.inj hs
  subst e
  have hm : (mem32 l w).length = 4 := by cases l <;> simp [mem32]
  have hl : (List.take (4 * offset) buf).length = 4 * offset := by
    rw [List.length_take]; omega
  unfold load32
  have hlen : 4 * offset + 4 ≤ (List.take (4 * offset) buf ++ mem32 l w
      ++ List.drop (4 * offset + 4) buf).length := by
    simp [hm, List.length_append, List.length_take, List.length_drop]; omega
  rw [if_pos hlen, List.append_assoc, List.drop_append_eq_append_drop, hl]
  simp [List.take_append_eq_append_take, hm, val32_mem32 l w h]
  rw [List.drop_eq_nil_of_le (by rw [List.length_take]; omega)]
  simp [List.take_of_length_le (Nat.le_of_eq hm), val32_mem32 l w h]

/-! ## C1: masked super-region write, then read -/

/-- C1. For a loaded image and an in-bounds word offset `O` (the read at `O`
returns `old`), a 32-bit value `V` and a 32-bit mask `M`: the write
`image_super_w(O, V, M)` is defined and a read at `O` afterwards returns
`(old & ~M) | (V & M)`; with `M = 0xFFFFFFFF` that is `V`, and with
`M = 0x0000FFFF` it is the high half of `old` joined with the low half of `V`. -/
theorem image_super_w_then_r (D : Decls) (s : nubus_image_device) (O V M old : Nat)
    (hV : V < 2 ^ 32) (hM : M < 2 ^ 32) (hold : image_super_r D s O = some old) :
    ∃ s1, image_super_w D s O V M = some s1
      ∧ image_super_r D s1 O = some ((old &&& not32 M) ||| (V &&& M))
      ∧ (M = 0xffffffff → image_super_r D s1 O = some V)
      ∧ (M = 0x0000ffff →
          image_super_r D s1 O = some ((old &&& 0xffff0000) ||| (V &&& 0x0000ffff))) := by
  unfold image_super_r at hold
  cases hd : s.m_image.m_data with
  | none => simp [hd] at hold
  | some image =>
    simp only [hd] at hold
    cases hl : load32 D.lsb_first image O with
    | none => simp [hl] at hold
    | some w =>
      simp only [hl, Option.some.injEq] at hold
      have hw : w < 2 ^ 32 := by
        unfold load32 at hl
        split_ifs at hl
        rw [← Option.some.inj hl]
        exact val32_lt _ _
      have hb : 4 * O + 4 ≤ image.length := by
        unfold load32 at hl
        split_ifs at hl with hb
        exact hb
      have hc := COMBINE_DATA_lt w (bswap32 V) (bswap32 M) hw (bswap32_lt V)
      have hst : store32 D.lsb_first image O (COMBINE_DATA w (bswap32 V) (bswap32 M))
          = some (image.take (4 * O) ++ mem32 D.lsb_first
              (COMBINE_DATA w (bswap32 V) (bswap32 M)) ++ image.drop (4 * O + 4)) := by
        unfold store32; rw [if_pos hb]
      have hrd := load32_store32 _ _ _ _ _ hc hst
      have key : image_super_r D
          { s with m_image := { s.m_image with m_data := some (image.take (4 * O)
              ++ mem32 D.lsb_first (COMBINE_DATA w (bswap32 V) (bswap32 M))
              ++ image.drop (4 * O + 4)) } } O
          = some ((old &&& not32 M) ||| (V &&& M)) := by
        simp only [image_super_r, hrd, Option.some.injEq]
        rw [bswap32_COMBINE_DATA w V M hM, hold]
      refine ⟨_, ?_, key, ?_, ?_⟩
      · simp only [image_super_w, hd, hl, hst]
      · intro hm
        rw [key, hm]
        have h0 : not32 0xffffffff = 0 := by decide
        have h1 : V &&& 0xffffffff = V := by
          have e : (0xffffffff : Nat) = 2 ^ 32 - 1 := by norm_num
          rw [e, Nat.and_pow_two_sub_one_eq_mod, Nat.mod_eq_of_lt hV]
        rw [h0, h1]; simp
      · intro hm
        rw [key, hm]
        have h0 : not32 0x0000ffff = 0xffff0000 := by decide
        rw [h0]

/-- Witness for C1: a four-byte image holding the bytes 1, 2, 3, 4, written at
word 0 with value 0xAABBCCDD under mask 0x0000FFFF. -/
theorem image_super_w_then_r_witness :
    ∃ s1, image_super_w sampleDecls
        { sampleCard with
          m_image := { m_size := 4, m_data := some [1, 2, 3, 4], m_ejected := false } }
        0 0xaabbccdd 0x0000ffff = some s1
      ∧ image_super_r sampleDecls s1 0 = some ((0x01020304 &&& not32 0x0000ffff)
          ||| (0xaabbccdd &&& 0x0000ffff))
      ∧ ((0x0000ffff : Nat) = 0xffffffff → image_super_r sampleDecls s1 0 = some 0xaabbccdd)
      ∧ ((0x0000ffff : Nat) = 0x0000ffff →
          image_super_r sampleDecls s1 0
            = some ((0x01020304 &&& 0xffff0000) ||| (0xaabbccdd &&& 0x0000ffff))) :=
  image_super_w_then_r sampleDecls _ 0 0xaabbccdd 0x0000ffff 0x01020304
    (by decide) (by decide) (by decide)

/-! ## C6, C7: loading an image -/

theorem fread_clear_length (file : List Byte) (n : Nat) : (fread_clear file n).length = n := by
  simp [fread_clear, List.length_take]

/-- C6 as stated fails for the empty image file: the load succeeds, the size
register reads 0 and the status register reads 0, not 1. -/
theorem call_load_empty_status :
    ([] : List Byte).length ≤ 268435456
      ∧ (image_call_load sampleCard []).1 = image_init_result.PASS
      ∧ image_r (image_call_load sampleCard []).2 = 0
      ∧ image_status_r (image_call_load sampleCard []).2 ≠ 1 := by
  decide

/-- C6 (amended). For every host image file of length `C ≤ 256 MiB`,
`call_load` succeeds, the whole file is in the buffer, and immediately
afterwards the image-size register returns `C`; the status register returns 1
when `C > 0` and 0 when `C = 0`. -/
theorem call_load_size_status (s : nubus_image_device) (file : List Byte)
    (hC : file.length ≤ 268435456) :
    (image_call_load s file).1 = image_init_result.PASS
      ∧ (image_call_load s file).2.m_image.m_data = some file
      ∧ image_r (image_call_load s file).2 = file.length
      ∧ (0 < file.length → image_status_r (image_call_load s file).2 = 1)
      ∧ (file.length = 0 → image_status_r (image_call_load s file).2 = 0) := by
  have hm : file.length % 2 ^ 32 = file.length := Nat.mod_eq_of_lt (by omega)
  have hn : ¬ (file.length > 256 * 1024 * 1024) := by omega
  have hf : fread_clear file file.length = file := by simp [fread_clear]
  simp only [image_call_load, call_load, hm, if_neg hn, image_r, image_status_r, hf]
  refine ⟨trivial, trivial, trivial, ?_, ?_⟩
  · intro h
    have h0 : file.length ≠ 0 := by omega
    simp [h0]
  · intro h; simp [h]

/-- Witness for C6: a four-byte image file. -/
theorem call_load_size_status_witness :
    (image_call_load sampleCard [1, 2, 3, 4]).1 = image_init_result.PASS
      ∧ (image_call_load sampleCard [1, 2, 3, 4]).2.m_image.m_data = some [1, 2, 3, 4]
      ∧ image_r (image_call_load sampleCard [1, 2, 3, 4]).2 = ([1, 2, 3, 4] : List Byte).length
      ∧ (0 < ([1, 2, 3, 4] : List Byte).length →
          image_status_r (image_call_load sampleCard [1, 2, 3, 4]).2 = 1)
      ∧ (([1, 2, 3, 4] : List Byte).length = 0 →
          image_status_r (image_call_load sampleCard [1, 2, 3, 4]).2 = 0) :=
  call_load_size_status sampleCard [1, 2, 3, 4] (by decide)

/-- What `call_load` does when the truncated length passes the size check. -/
theorem call_load_of_truncated (s : nubus_image_device) (file : List Byte) (n : Nat)
    (hn : file.length % 2 ^ 32 = n) (hle : n ≤ 268435456) (hpos : n ≠ 0) :
    (image_call_load s file).1 = image_init_result.PASS
      ∧ image_r (image_call_load s file).2 = n
      ∧ image_status_r (image_call_load s file).2 = 1 := by
  have hg : ¬ (n > 256 * 1024 * 1024) := by omega
  simp only [image_call_load, call_load, hn, if_neg hg, image_r, image_status_r]
  simp [hpos]

/-- C7. An image file of 4294967300 bytes (4 GiB + 4) is longer than 256 MiB,
yet `call_load` returns PASS: the length is truncated to 32 bits before the
comparison, so the size register then reads 4 and the status register 1. -/
theorem call_load_accepts_oversize :
    268435456 < (List.replicate 4294967300 (0 : Byte)).length
      ∧ (image_call_load sampleCard (List.replicate 4294967300 0)).1 = image_init_result.PASS
      ∧ image_r (image_call_load sampleCard (List.replicate 4294967300 0)).2 = 4
      ∧ image_status_r (image_call_load sampleCard (List.replicate 4294967300 0)).2 = 1 := by
  have hl : (List.replicate 4294967300 (0 : Byte)).length = 4294967300 :=
    List.length_replicate _ _
  refine ⟨by rw [hl]; norm_num, ?_⟩
  exact call_load_of_truncated sampleCard _ 4 (by rw [hl]; norm_num) (by norm_num) (by norm_num)

/-! ## What each handler leaves alone -/

theorem file_cmd_w_m_image (D : Decls) (o : Bool) (s : nubus_image_device) (d : Nat) :
    (file_cmd_w D o s d).m_image = s.m_image := by
  unfold file_cmd_w
  simp only
  split_ifs <;> (try split) <;> rfl

theorem file_cmd_r_frame (D : Decls) (o m : Bool) (s : nubus_image_device) :
    (file_cmd_r D o m s).2.m_image = s.m_image
      ∧ (file_cmd_r D o m s).2.filectx = s.filectx
      ∧ (file_cmd_r D o m s).2.lastcmd = s.lastcmd
      ∧ (file_cmd_r D o m s).2.host = s.host := by
  unfold file_cmd_r
  simp only
  split_ifs <;> (try split) <;> exact ⟨rfl, rfl, rfl, rfl⟩

theorem file_data_w_frame {D : Decls} {wa : Nat} {s t : nubus_image_device} {d : Nat}
    (h : file_data_w D wa s d = some t) :
    t.m_image = s.m_image ∧ t.importctx = s.importctx ∧ t.lastcmd = s.lastcmd
      ∧ t.filectx.filelen = s.filectx.filelen ∧ t.filectx.filename = s.filectx.filename
      ∧ t.filectx.filenameoffset = s.filectx.filenameoffset
      ∧ t.filectx.curdir = s.filectx.curdir ∧ t.filectx.curcmd = s.filectx.curcmd := by
  unfold file_data_w at h
  split at h
  · cases h; exact ⟨rfl, rfl, rfl, rfl, rfl, rfl, rfl, rfl⟩
  · simp only at h
    split_ifs at h <;> cases h <;> exact ⟨rfl, rfl, rfl, rfl, rfl, rfl, rfl, rfl⟩

theorem file_data_r_frame (D : Decls) (j : Nat) (s : nubus_image_device) :
    (file_data_r D j s).2.m_image = s.m_image
      ∧ (file_data_r D j s).2.filectx = s.filectx
      ∧ (file_data_r D j s).2.lastcmd = s.lastcmd
      ∧ (file_data_r D j s).2.host = s.host := by
  unfold file_data_r
  split <;> exact ⟨rfl, rfl, rfl, rfl⟩

theorem file_name_w_frame {s t : nubus_image_device} {d : Nat} (h : file_name_w s d = some t) :
    t.m_image = s.m_image ∧ t.importctx = s.importctx ∧ t.lastcmd = s.lastcmd
      ∧ t.host = s.host ∧ t.filectx.fd = s.filectx.fd
      ∧ t.filectx.filelen = s.filectx.filelen ∧ t.filectx.bytecount = s.filectx.bytecount := by
  unfold file_name_w at h
  split_ifs at h
  cases h
  exact ⟨rfl, rfl, rfl, rfl, rfl, rfl, rfl⟩

theorem file_name_r_frame {D : Decls} {s : nubus_image_device} {r : Nat × nubus_image_device}
    (h : file_name_r D s = some r) :
    r.2.m_image = s.m_image ∧ r.2.filectx = s.filectx ∧ r.2.lastcmd = s.lastcmd
      ∧ r.2.host = s.host := by
  unfold file_name_r at h
  simp only at h
  split_ifs at h <;> cases h <;> exact ⟨rfl, rfl, rfl, rfl⟩

theorem image_super_w_frame {D : Decls} {s t : nubus_image_device} {o d m : Nat}
    (h : image_super_w D s o d m = some t) :
    t.filectx = s.filectx ∧ t.importctx = s.importctx ∧ t.lastcmd = s.lastcmd
      ∧ t.host = s.host ∧ t.m_image.m_size = s.m_image.m_size
      ∧ t.m_image.m_ejected = s.m_image.m_ejected := by
  unfold image_super_w at h
  split at h
  · cases h
  · simp only at h
    split at h
    · cases h
    · split at h
      · cases h
      · cases h; exact ⟨rfl, rfl, rfl, rfl, rfl, rfl⟩

theorem call_unload_frame {d t : messimg_disk_image_device} {file f1 : List Byte}
    (h : call_unload d file = some (t, f1)) :
    t.m_size = 0 ∧ t.m_data = d.m_data ∧ t.m_ejected = d.m_ejected := by
  unfold call_unload at h
  split_ifs at h
  · cases h; exact ⟨rfl, rfl, rfl⟩
  · split at h
    · cases h
    · split_ifs at h
      cases h; exact ⟨rfl, rfl, rfl⟩

/-- The ejected flag after a register access is the flag before it, except
that a status write sets it. -/
theorem access_ejected {D : Decls} {e : Env} {s : nubus_image_device} {a : Access}
    {r : Nat × nubus_image_device} (hr : access D e s a = some r) :
    r.2.m_image.m_ejected = true ∨ r.2.m_image.m_ejected = s.m_image.m_ejected := by
  cases a with
  | image_r => cases hr; exact Or.inr rfl
  | image_w d => cases hr; exact Or.inr rfl
  | image_status_r => cases hr; exact Or.inr rfl
  | image_status_w d => cases hr; exact Or.inl rfl
  | file_cmd_r =>
    simp only [access, Option.some.injEq] at hr
    subst hr
    exact Or.inr (congrArg _ (file_cmd_r_frame D _ _ s).1)
  | file_cmd_w d =>
    simp only [access, Option.some.injEq] at hr
    subst hr
    exact Or.inr (congrArg _ (file_cmd_w_m_image D _ s d))
  | file_data_r =>
    simp only [access, Option.some.injEq] at hr
    subst hr
    exact Or.inr (congrArg _ (file_data_r_frame D _ s).1)
  | file_data_w d =>
    simp only [access] at hr
    cases ht : file_data_w D e.write_accept s d with
    | none => simp [ht] at hr
    | some t =>
      simp only [ht, Option.map_some', Option.some.injEq] at hr
      subst hr
      exact Or.inr (congrArg _ (file_data_w_frame ht).1)
  | file_len_r => cases hr; exact Or.inr rfl
  | file_len_w d => cases hr; exact Or.inr rfl
  | file_name_r =>
    simp only [access] at hr
    exact Or.inr (congrArg _ (file_name_r_frame hr).1)
  | file_name_w d =>
    simp only [access] at hr
    cases ht : file_name_w s d with
    | none => simp [ht] at hr
    | some t =>
      simp only [ht, Option.map_some', Option.some.injEq] at hr
      subst hr
      exact Or.inr (congrArg _ (file_name_w_frame ht).1)
  | mousepos_r => cases hr; exact Or.inr rfl
  | mousepos_w d => cases hr; exact Or.inr rfl
  | image_super_r o =>
    simp only [access] at hr
    cases ht : image_super_r D s o with
    | none => simp [ht] at hr
    | some t =>
      simp only [ht, Option.map_some', Option.some.injEq] at hr
      subst hr
      exact Or.inr rfl
  | image_super_w o d m =>
    simp only [access] at hr
    cases ht : image_super_w D s o d m with
    | none => simp [ht] at hr
    | some t =>
      simp only [ht, Option.map_some', Option.some.injEq] at hr
      subst hr
      exact Or.inr (image_super_w_frame ht).2.2.2.2.2

/-! ## C8: ejection -/

/-- C8. Writing any value to the status register sets the ejected flag, and
the status register reads 0 while the flag is set, whatever the size. Once the
flag is set it is still set after every register access, after every unload
and after a load that fails; a load that succeeds clears it. -/
theorem ejected_until_load (D : Decls) (e : Env) (s0 s : nubus_image_device) (data : Nat)
    (a : Access) (file : List Byte) (start : Option (List Byte))
    (h : s.m_image.m_ejected = true) :
    (image_status_w s0 data).m_image.m_ejected = true
      ∧ image_status_r (image_status_w s0 data) = 0
      ∧ image_status_r s = 0
      ∧ (∀ r ∈ access D e s a, r.2.m_image.m_ejected = true)
      ∧ (∀ r ∈ image_call_unload s file, r.1.m_image.m_ejected = true)
      ∧ (image_device_start s start).m_image.m_ejected = true
      ∧ ((image_call_load s file).1 = image_init_result.FAIL →
          (image_call_load s file).2.m_image.m_ejected = true)
      ∧ ((image_call_load s file).1 = image_init_result.PASS →
          (image_call_load s file).2.m_image.m_ejected = false) := by
  refine ⟨rfl, rfl, by simp [image_status_r, h], ?_, ?_, ?_, ?_, ?_⟩
  · intro r hr
    rcases access_ejected hr with h1 | h1
    · exact h1
    · rw [h1]; exact h
  · intro r hr
    simp only [image_call_unload, Option.mem_def] at hr
    cases hu : call_unload s.m_image file with
    | none => simp [hu] at hr
    | some t =>
      simp only [hu, Option.map_some', Option.some.injEq] at hr
      subst hr
      exact (call_unload_frame hu).2.2.trans h
  · unfold image_device_start messimg_disk_image_device.device_start
    cases start <;> exact h
  · intro hf
    simp only [image_call_load, call_load] at hf ⊢
    split_ifs at hf ⊢
    exact h
  · intro hp
    simp only [image_call_load, call_load] at hp ⊢
    split_ifs at hp ⊢
    rfl

/-- Witness for C8: the sample card after a status write, read through the
size register and loaded with a four-byte image. -/
theorem ejected_until_load_witness :
    (image_status_w sampleCard 1).m_image.m_ejected = true
      ∧ (image_status_w sampleCard 0).m_image.m_ejected = true
      ∧ image_status_r (image_status_w sampleCard 0) = 0
      ∧ image_status_r (image_status_w sampleCard 1) = 0
      ∧ (∀ r ∈ access sampleDecls sampleEnv (image_status_w sampleCard 1) Access.image_r,
          r.2.m_image.m_ejected = true)
      ∧ (∀ r ∈ image_call_unload (image_status_w sampleCard 1) [1, 2, 3, 4],
          r.1.m_image.m_ejected = true)
      ∧ (image_device_start (image_status_w sampleCard 1) none).m_image.m_ejected = true
      ∧ ((image_call_load (image_status_w sampleCard 1) [1, 2, 3, 4]).1
            = image_init_result.FAIL →
          (image_call_load (image_status_w sampleCard 1) [1, 2, 3, 4]).2.m_image.m_ejected
            = true)
      ∧ ((image_call_load (image_status_w sampleCard 1) [1, 2, 3, 4]).1
            = image_init_result.PASS →
          (image_call_load (image_status_w sampleCard 1) [1, 2, 3, 4]).2.m_image.m_ejected
            = false) :=
  ⟨rfl, ejected_until_load sampleDecls sampleEnv sampleCard (image_status_w sampleCard 1) 0
    Access.image_r [1, 2, 3, 4] none rfl⟩

/-! ## C9: a command code outside the enumeration -/

/-- C9 as stated fails: with the last command 8 (`ImportUI`) and the picker
off screen the command register reads 0xFFFFFFFF; after a write of the
unrecognized code 0x99 the recorded last command is 0x99 and the same read
returns 0. -/
theorem file_cmd_w_unrecognized_changes_poll :
    0x99 ∉ sampleDecls.codes
      ∧ (file_cmd_w sampleDecls true (file_cmd_w sampleDecls true startCard 8) 0x99).lastcmd
          ≠ (file_cmd_w sampleDecls true startCard 8).lastcmd
      ∧ (file_cmd_r sampleDecls true false (file_cmd_w sampleDecls true startCard 8)).1
          = 0xffffffff
      ∧ (file_cmd_r sampleDecls true false
          (file_cmd_w sampleDecls true (file_cmd_w sampleDecls true startCard 8) 0x99)).1
          = 0 := by
  decide

/-- C9 (amended). For every card state and every command code that is not one
of the nine codes of the enumeration, `file_cmd_w` records the code as the
current command and as the last command and changes nothing else. -/
theorem file_cmd_w_unrecognized (D : Decls) (o : Bool) (s : nubus_image_device) (data : Nat)
    (h : data ∉ D.codes) :
    file_cmd_w D o s data
      = { s with filectx := { s.filectx with curcmd := data }, lastcmd := data } := by
  simp only [Decls.codes, List.mem_cons, List.mem_singleton, not_or, List.not_mem_nil,
    or_false] at h
  obtain ⟨h1, h2, h3, h4, h5, h6, h7, h8, h9⟩ := h
  simp [file_cmd_w, h1, h2, h3, h4, h5, h6, h7, h8, h9]

/-- Witness for C9: the code 0x99 written to the sample card. -/
theorem file_cmd_w_unrecognized_witness :
    file_cmd_w sampleDecls true startCard 0x99
      = { startCard with filectx := { startCard.filectx with curcmd := 0x99 }, lastcmd := 0x99 } :=
  file_cmd_w_unrecognized sampleDecls true startCard 0x99 (by decide)

/-! ## C4, C5: polling the picker through the command register -/

/-- C4 as stated fails: on the card with a selected eight-byte file the first
command-register read returns the success code 0x1003 and opens the file; after
one data read has moved the transferred count to 4, a second command-register
read returns 0x1003 again and sets the transferred count back to 0. -/
theorem file_cmd_r_selected_repeats :
    (file_cmd_r sampleDecls true false selectedCard).1 = 0x1003
      ∧ (file_data_r sampleDecls 0 (file_cmd_r sampleDecls true false selectedCard).2).1
          = 0x01020304
      ∧ (file_data_r sampleDecls 0
          (file_cmd_r sampleDecls true false selectedCard).2).2.importctx.bytecount = 4
      ∧ (file_cmd_r sampleDecls true false (file_data_r sampleDecls 0
          (file_cmd_r sampleDecls true false selectedCard).2).2).1 = 0x1003
      ∧ (file_cmd_r sampleDecls true false (file_data_r sampleDecls 0
          (file_cmd_r sampleDecls true false selectedCard).2).2).2.importctx.bytecount = 0 := by
  decide

/-- C4 (amended). While the last command is `ImportUI` and the result slot
holds the file-selected code, every command-register read returns the success
code (the low 32 bits of the slot) and performs the open: the transferred count
and the name cursor are 0 afterwards and the handle is the outcome of opening
the selected path. The slot and the last command are not changed, so a repeated
read returns the same value and leaves the same state. -/
theorem file_cmd_r_selected (D : Decls) (o m : Bool) (s : nubus_image_device)
    (hc : s.lastcmd = D.kFileCmdImportUI) (hr : s.importctx.result = D.result_FILE) :
    (file_cmd_r D o m s).1 = (D.result_FILE % 2 ^ 32).toNat
      ∧ (file_cmd_r D o m s).2.importctx.bytecount = 0
      ∧ (file_cmd_r D o m s).2.importctx.name_offset = 0
      ∧ (file_cmd_r D o m s).2.importctx.fd
          = (osd_open_read o s.host s.importctx.file).map Prod.fst
      ∧ (file_cmd_r D o m s).2.importctx.result = D.result_FILE
      ∧ (file_cmd_r D o m s).2.lastcmd = D.kFileCmdImportUI
      ∧ file_cmd_r D o m (file_cmd_r D o m s).2 = file_cmd_r D o m s := by
  unfold file_cmd_r
  simp only [hc, hr, if_true]
  cases hopen : osd_open_read o s.host s.importctx.file with
  | none => simp [hc, hr, hopen]
  | some r => simp [hc, hr, hopen]

/-- Witness for C4: the card with a selected eight-byte file. -/
theorem file_cmd_r_selected_witness :
    (file_cmd_r sampleDecls true false selectedCard).1 = (sampleDecls.result_FILE % 2 ^ 32).toNat
      ∧ (file_cmd_r sampleDecls true false selectedCard).2.importctx.bytecount = 0
      ∧ (file_cmd_r sampleDecls true false selectedCard).2.importctx.name_offset = 0
      ∧ (file_cmd_r sampleDecls true false selectedCard).2.importctx.fd
          = (osd_open_read true selectedCard.host selectedCard.importctx.file).map Prod.fst
      ∧ (file_cmd_r sampleDecls true false selectedCard).2.importctx.result
          = sampleDecls.result_FILE
      ∧ (file_cmd_r sampleDecls true false selectedCard).2.lastcmd
          = sampleDecls.kFileCmdImportUI
      ∧ file_cmd_r sampleDecls true false (file_cmd_r sampleDecls true false selectedCard).2
          = file_cmd_r sampleDecls true false selectedCard :=
  file_cmd_r_selected sampleDecls true false selectedCard (by decide) (by decide)

/-- C5. `ImportUI` leaves the result slot at 0 and itself as the last command.
While the last command is `ImportUI` and the slot does not hold the
file-selected code, a command-register read changes no state and returns
0xFFFFFFFF whenever the picker is not active, and the slot (0 as long as the
picker has not stored anything) whenever it is active. While the last command
is not `ImportUI` the read returns 0 and changes no state. -/
theorem file_cmd_r_pending_cancelled (D : Decls) (o m : Bool) (s : nubus_image_device)
    (hD : D.codes.Nodup) :
    ((file_cmd_w D o s D.kFileCmdImportUI).lastcmd = D.kFileCmdImportUI
        ∧ (file_cmd_w D o s D.kFileCmdImportUI).importctx.result = 0)
      ∧ (s.lastcmd = D.kFileCmdImportUI → s.importctx.result ≠ D.result_FILE →
          file_cmd_r D o false s = (0xffffffff, s))
      ∧ (s.lastcmd = D.kFileCmdImportUI → s.importctx.result ≠ D.result_FILE →
          s.importctx.result = 0 → file_cmd_r D o true s = (0, s))
      ∧ (s.lastcmd = D.kFileCmdImportUI → s.importctx.result ≠ D.result_FILE →
          file_cmd_r D o true s = ((s.importctx.result % 2 ^ 32).toNat, s))
      ∧ (s.lastcmd ≠ D.kFileCmdImportUI → file_cmd_r D o m s = (0, s)) := by
  simp only [Decls.codes, List.nodup_cons, List.mem_cons, List.mem_singleton, not_or,
    List.not_mem_nil, or_false] at hD
  obtain ⟨⟨-, -, -, -, -, -, h1, -⟩, ⟨-, -, -, -, -, h2, -⟩, ⟨-, -, -, -, h3, -⟩,
    ⟨-, -, -, h4, -⟩, ⟨-, -, h5, -⟩, ⟨-, h6, -⟩, ⟨h7, -⟩, -⟩ := hD
  refine ⟨?_, ?_, ?_, ?_, ?_⟩
  · simp [file_cmd_w, Ne.symm h1, Ne.symm h2, Ne.symm h3, Ne.symm h4, Ne.symm h5, Ne.symm h6,
      Ne.symm h7]
  · intro hc hr
    simp [file_cmd_r, hc, hr]
  · intro hc hr h0
    have e : file_cmd_r D o true s = ((s.importctx.result % 2 ^ 32).toNat, s) := by
      simp [file_cmd_r, hc, hr]
    rw [e, h0]
    rfl
  · intro hc hr
    simp [file_cmd_r, hc, hr]
  · intro hc
    simp [file_cmd_r, hc]

/-- Witness for C5: the sample card after `ImportUI`, and before any command. -/
theorem file_cmd_r_pending_cancelled_witness :
    sampleDecls.codes.Nodup
      ∧ file_cmd_r sampleDecls true false (file_cmd_w sampleDecls true startCard 8)
          = (0xffffffff, file_cmd_w sampleDecls true startCard 8)
      ∧ file_cmd_r sampleDecls true true (file_cmd_w sampleDecls true startCard 8)
          = (0, file_cmd_w sampleDecls true startCard 8)
      ∧ file_cmd_r sampleDecls true true startCard = (0, startCard) :=
  have h := file_cmd_r_pending_cancelled sampleDecls true true
    (file_cmd_w sampleDecls true startCard 8) (by decide)
  ⟨by decide, h.2.1 (by decide) (by decide), h.2.2.1 (by decide) (by decide) (by decide),
    (file_cmd_r_pending_cancelled sampleDecls true true startCard (by decide)).2.2.2.2
      (by decide)⟩

/-! ## C11, C13, C19: accesses that leave a channel alone -/

/-- C11. When the direct channel has no open handle, a data-register write of
any value leaves the card state, host files included, as it was. When the import
channel has no open handle, a data-register read returns 0 and leaves the card
state as it was. -/
theorem data_access_without_handle (D : Decls) (e : Env) (s : nubus_image_device) (data : Nat) :
    (s.filectx.fd = none → file_data_w D e.write_accept s data = some s)
      ∧ (s.importctx.fd = none → file_data_r D e.junk s = (0, s)) := by
  constructor
  · intro h
    simp [file_data_w, h]
  · intro h
    simp [file_data_r, h]

/-- Witness for C11: the sample card after `device_start`, whose channels
are both closed. -/
theorem data_access_without_handle_witness :
    startCard.filectx.fd = none ∧ startCard.importctx.fd = none
      ∧ file_data_w sampleDecls sampleEnv.write_accept startCard 0x01020304 = some startCard
      ∧ file_data_r sampleDecls sampleEnv.junk startCard = (0, startCard) :=
  ⟨rfl, rfl,
    (data_access_without_handle sampleDecls sampleEnv startCard 0x01020304).1 rfl,
    (data_access_without_handle sampleDecls sampleEnv startCard 0x01020304).2 rfl⟩

/-- C19. The direct-channel operations (data write, length write, name write,
and the commands `GetFile`, `PutFile`, `FileClose`) leave the whole import
context alone: handle, transferred count, declared length, name cursor, path
and result. The import-channel operations (data read, name read, and the
command `ImportClose`; the length read returns no state) leave the handle, the
transferred count, the declared length and the name buffer with its cursor of
the direct channel alone. -/
theorem channels_independent (D : Decls) (e : Env) (s : nubus_image_device) (data : Nat)
    (hD : D.codes.Nodup) :
    (∀ t ∈ file_data_w D e.write_accept s data, t.importctx = s.importctx)
      ∧ (file_len_w s data).importctx = s.importctx
      ∧ (∀ t ∈ file_name_w s data, t.importctx = s.importctx)
      ∧ (file_cmd_w D e.open_ok s D.kFileCmdGetFile).importctx = s.importctx
      ∧ (file_cmd_w D e.open_ok s D.kFileCmdPutFile).importctx = s.importctx
      ∧ (file_cmd_w D e.open_ok s D.kFileCmdFileClose).importctx = s.importctx
      ∧ (file_data_r D e.junk s).2.filectx = s.filectx
      ∧ (∀ r ∈ file_name_r D s, r.2.filectx = s.filectx)
      ∧ ((file_cmd_w D e.open_ok s D.kFileCmdImportClose).filectx.fd = s.filectx.fd
        ∧ (file_cmd_w D e.open_ok s D.kFileCmdImportClose).filectx.bytecount
            = s.filectx.bytecount
        ∧ (file_cmd_w D e.open_ok s D.kFileCmdImportClose).filectx.filelen = s.filectx.filelen
        ∧ (file_cmd_w D e.open_ok s D.kFileCmdImportClose).filectx.filename
            = s.filectx.filename
        ∧ (file_cmd_w D e.open_ok s D.kFileCmdImportClose).filectx.filenameoffset
            = s.filectx.filenameoffset) := by
  simp only [Decls.codes, List.nodup_cons, List.mem_cons, List.mem_singleton, not_or,
    List.not_mem_nil, or_false] at hD
  obtain ⟨⟨-, -, -, -, -, -, -, h1⟩, ⟨-, -, -, -, -, -, h2⟩, ⟨-, -, -, -, -, h3⟩,
    ⟨-, -, -, -, h4⟩, ⟨-, -, -, h5⟩, ⟨-, -, h6⟩, ⟨-, h7⟩, h8, -⟩ := hD
  refine ⟨?_, rfl, ?_, ?_, ?_, ?_, (file_data_r_frame D _ s).2.1, ?_, ?_⟩
  · intro t ht
    exact (file_data_w_frame ht).2.1
  · intro t ht
    exact (file_name_w_frame ht).2.1
  · unfold file_cmd_w
    simp only
    split_ifs <;> (try split) <;> rfl
  · unfold file_cmd_w
    simp only
    split_ifs <;> (try split) <;> rfl
  · unfold file_cmd_w
    simp only
    split_ifs <;> (try split) <;> rfl
  · intro r hr
    exact (file_name_r_frame hr).2.1
  · simp [file_cmd_w, Ne.symm h1, Ne.symm h2, Ne.symm h3, Ne.symm h4, Ne.symm h5, Ne.symm h6,
      Ne.symm h7, Ne.symm h8]

/-- Witness for C19: the card with a selected file, whose import context is
not the initial one. -/
theorem channels_independent_witness :
    sampleDecls.codes.Nodup
      ∧ (∀ t ∈ file_data_w sampleDecls sampleEnv.write_accept selectedCard 7,
          t.importctx = selectedCard.importctx)
      ∧ (file_cmd_w sampleDecls sampleEnv.open_ok selectedCard
          sampleDecls.kFileCmdPutFile).importctx = selectedCard.importctx
      ∧ (file_data_r sampleDecls sampleEnv.junk selectedCard).2.filectx = selectedCard.filectx
      ∧ (file_cmd_w sampleDecls sampleEnv.open_ok selectedCard
          sampleDecls.kFileCmdImportClose).filectx.filename = selectedCard.filectx.filename :=
  have h := channels_independent sampleDecls sampleEnv selectedCard 7 (by decide)
  ⟨by decide, h.1, h.2.2.2.2.1, h.2.2.2.2.2.2.1, h.2.2.2.2.2.2.2.2.2.2.2.1⟩

/-! ## C20, C18: the super-slot window and the bounds of the buffer -/

theorem mem32_length (l : Bool) (w : Nat) : (mem32 l w).length = 4 := by
  cases l <;> simp [mem32]

theorem mem32_val32 (l : Bool) (bs : List Byte) (h : bs.length = 4) :
    mem32 l (val32 l bs) = bs := by
  rcases bs with _ | ⟨a, _ | ⟨b, _ | ⟨c, _ | ⟨d, _ | ⟨x, t⟩⟩⟩⟩⟩ <;> simp at h
  have := a.isLt; have := b.isLt; have := c.isLt; have := d.isLt
  cases l <;> simp only [val32, mem32, byteOf, Bool.false_eq_true, if_false, if_true,
      List.cons.injEq, and_true] <;> refine ⟨?_, ?_, ?_, ?_⟩ <;> apply Fin.ext <;>
    simp only <;> omega

theorem take_drop_patch (buf m : List Byte) (O k : Nat) (hb : 4 * O + 4 ≤ buf.length)
    (hm : m.length = 4) (hk : k + 4 ≤ 4 * O ∨ 4 * O + 4 ≤ k) :
    ((buf.take (4 * O) ++ m ++ buf.drop (4 * O + 4)).drop k).take 4 = (buf.drop k).take 4 := by
  apply List.ext_getElem?
  intro i
  simp only [List.getElem?_take, List.getElem?_drop]
  by_cases hi : i < 4
  · simp only [hi, if_true]
    rw [List.append_assoc, List.getElem?_append]
    simp only [List.length_take, List.getElem?_take]
    rcases hk with hk | hk
    · have : k + i < min (4 * O) buf.length := by omega
      simp [this]
      omega
    · have : ¬ k + i < min (4 * O) buf.length := by omega
      simp only [this, if_false]
      rw [List.getElem?_append_right (by omega)]
      simp only [List.getElem?_drop, hm]
      congr 1
      omega
  · simp [hi]

theorem store32_eq {l : Bool} {buf buf1 : List Byte} {O w : Nat}
    (hs : store32 l buf O w = some buf1) :
    4 * O + 4 ≤ buf.length
      ∧ buf1 = buf.take (4 * O) ++ mem32 l w ++ buf.drop (4 * O + 4) := by
  unfold store32 at hs
  split_ifs at hs with hb
  cases hs
  exact ⟨hb, rfl⟩

theorem store32_length {l : Bool} {buf buf1 : List Byte} {O w : Nat}
    (hs : store32 l buf O w = some buf1) : buf1.length = buf.length := by
  obtain ⟨hb, rfl⟩ := store32_eq hs
  simp only [List.length_append, List.length_take, List.length_drop, mem32_length]
  omega

theorem load32_store32_ne {l : Bool} {buf buf1 : List Byte} {O w : Nat} (k : Nat)
    (hs : store32 l buf O w = some buf1) (hk : k ≠ O) : load32 l buf1 k = load32 l buf k := by
  have hlen := store32_length hs
  obtain ⟨hb, rfl⟩ := store32_eq hs
  unfold load32
  rw [hlen]
  split_ifs with h
  · rw [take_drop_patch buf _ O (4 * k) hb (mem32_length l w) (by omega)]
  · rfl

theorem store32_same (l : Bool) (buf : List Byte) (O : Nat) (hb : 4 * O + 4 ≤ buf.length) :
    store32 l buf O (val32 l ((buf.drop (4 * O)).take 4)) = some buf := by
  unfold store32
  rw [if_pos hb, mem32_val32 l _ (by rw [List.length_take, List.length_drop]; omega)]
  have e : buf.drop (4 * O + 4) = (buf.drop (4 * O)).drop 4 := by
    rw [List.drop_drop]
  rw [e, List.append_assoc, List.take_append_drop, List.take_append_drop]

theorem COMBINE_DATA_zero_mask (old data : Nat) (h : old < 2 ^ 32) :
    COMBINE_DATA old data 0 = old := by
  have h0 : not32 0 = 2 ^ 32 - 1 := by decide
  unfold COMBINE_DATA
  rw [h0, Nat.and_pow_two_sub_one_eq_mod, Nat.mod_eq_of_lt h]
  simp

/-- C20. For a loaded image and an in-bounds word offset `O`, the write
`image_super_w(O, V, M)` is defined, a read at any other word offset returns
what it returned before, the tracked size and the ejected flag are unchanged,
and with `M = 0` the whole card state, the buffer included, is unchanged. -/
theorem image_super_w_other_words (D : Decls) (s : nubus_image_device) (image : List Byte)
    (O V M : Nat) (hd : s.m_image.m_data = some image) (hO : 4 * O + 4 ≤ image.length) :
    ∃ s1, image_super_w D s O V M = some s1
      ∧ (∀ k, k ≠ O → image_super_r D s1 k = image_super_r D s k)
      ∧ s1.m_image.m_size = s.m_image.m_size
      ∧ s1.m_image.m_ejected = s.m_image.m_ejected
      ∧ (M = 0 → s1 = s) := by
  have hl : load32 D.lsb_first image O = some (val32 D.lsb_first ((image.drop (4 * O)).take 4)) := by
    unfold load32; rw [if_pos hO]
  cases hst : store32 D.lsb_first image O (COMBINE_DATA
      (val32 D.lsb_first ((image.drop (4 * O)).take 4)) (bswap32 V) (bswap32 M)) with
  | none => unfold store32 at hst; rw [if_pos hO] at hst; cases hst
  | some image1 =>
    have hw : image_super_w D s O V M
        = some { s with m_image := { s.m_image with m_data := some image1 } } := by
      simp only [image_super_w, hd, hl, hst]
    refine ⟨_, hw, ?_, rfl, rfl, ?_⟩
    · intro k hk
      simp only [image_super_r, hd, load32_store32_ne k hst hk]
    · intro hM
      subst hM
      have hz : bswap32 0 = 0 := by decide
      rw [hz, COMBINE_DATA_zero_mask _ _ (val32_lt _ _), store32_same _ _ _ hO] at hst
      cases hst
      cases s with
      | mk mi fc ic lc ho =>
        cases mi with
        | mk sz dt ej =>
          simp only at hd
          subst hd
          rfl

/-- Witness for C20: a card whose image holds the eight bytes 1 to 8, written
at word 1. -/
theorem image_super_w_other_words_witness :
    ∃ s1, image_super_w sampleDecls
        { sampleCard with
          m_image := { m_size := 8, m_data := some [1, 2, 3, 4, 5, 6, 7, 8], m_ejected := false } }
        1 0xaabbccdd 0x0000ffff = some s1
      ∧ (∀ k, k ≠ 1 → image_super_r sampleDecls s1 k = image_super_r sampleDecls
          { sampleCard with
            m_image := { m_size := 8, m_data := some [1, 2, 3, 4, 5, 6, 7, 8],
                         m_ejected := false } } k)
      ∧ s1.m_image.m_size = 8
      ∧ s1.m_image.m_ejected = false
      ∧ ((0x0000ffff : Nat) = 0 → s1 = { sampleCard with
          m_image := { m_size := 8, m_data := some [1, 2, 3, 4, 5, 6, 7, 8],
                       m_ejected := false } }) :=
  image_super_w_other_words sampleDecls _ [1, 2, 3, 4, 5, 6, 7, 8] 1 0xaabbccdd 0x0000ffff
    rfl (by decide)

/-- C18 as stated fails: the accessors make no bounds check. On a card with
no buffer, and on a card whose buffer has four bytes accessed at word 1, both
`image_super_r` and `image_super_w` index outside the buffer, which the
embedding renders as `none` (undefined behaviour) rather than a rejected or
clamped access. -/
theorem image_super_unchecked :
    image_super_r sampleDecls startCard 0 = none
      ∧ image_super_w sampleDecls startCard 0 0x11223344 0xffffffff = none
      ∧ image_super_r sampleDecls (image_call_load startCard [1, 2, 3, 4]).2 1 = none
      ∧ image_super_w sampleDecls (image_call_load startCard [1, 2, 3, 4]).2 1 0x11223344
          0xffffffff = none :=
  ⟨rfl, rfl, rfl, rfl⟩

/-- What a defined super-slot write does to the buffer. -/
theorem image_super_w_some {D : Decls} {s t : nubus_image_device} {O V M : Nat}
    (hw : image_super_w D s O V M = some t) :
    ∃ image image1, s.m_image.m_data = some image ∧ 4 * O + 4 ≤ image.length
      ∧ t.m_image.m_data = some image1 ∧ image1.length = image.length
      ∧ image1.take (4 * O) = image.take (4 * O)
      ∧ image1.drop (4 * O + 4) = image.drop (4 * O + 4) := by
  unfold image_super_w at hw
  split at hw
  · cases hw
  · rename_i image hd
    simp only at hw
    split at hw
    · cases hw
    · split at hw
      · cases hw
      · rename_i image1 hst
        cases hw
        have hlen := store32_length hst
        obtain ⟨hb, rfl⟩ := store32_eq hst
        refine ⟨image, _, hd, hb, rfl, hlen, ?_, ?_⟩
        · rw [List.append_assoc]
          exact List.take_left' (by rw [List.length_take]; omega)
        · exact List.drop_left' (by
            rw [List.length_append, List.length_take, mem32_length]; omega)

/-- C18 (amended). The super-slot accessors are defined exactly when a buffer
is present and the four bytes of the word lie inside it
(`4 * offset + 4 ≤` buffer length). A defined write leaves the length of the
buffer and every byte outside those four unchanged. -/
theorem image_super_defined_iff (D : Decls) (s : nubus_image_device) (O V M : Nat) :
    ((image_super_r D s O).isSome
        ↔ ∃ image, s.m_image.m_data = some image ∧ 4 * O + 4 ≤ image.length)
      ∧ ((image_super_w D s O V M).isSome
        ↔ ∃ image, s.m_image.m_data = some image ∧ 4 * O + 4 ≤ image.length)
      ∧ (∀ image s1, s.m_image.m_data = some image → image_super_w D s O V M = some s1 →
          ∃ image1, s1.m_image.m_data = some image1 ∧ image1.length = image.length
            ∧ image1.take (4 * O) = image.take (4 * O)
            ∧ image1.drop (4 * O + 4) = image.drop (4 * O + 4)) := by
  refine ⟨?_, ?_, ?_⟩
  · unfold image_super_r
    cases hd : s.m_image.m_data with
    | none => simp
    | some image =>
      simp only [Option.some.injEq, exists_eq_left']
      unfold load32
      split_ifs with h <;> simp [h]
  · unfold image_super_w
    cases hd : s.m_image.m_data with
    | none => simp
    | some image =>
      simp only [Option.some.injEq, exists_eq_left']
      unfold load32 store32
      split_ifs with h <;> simp [h]
  · intro image s1 hd hw
    obtain ⟨image0, image1, hd0, -, hd1, hlen, htake, hdrop⟩ := image_super_w_some hw
    rw [hd] at hd0
    cases hd0
    exact ⟨image1, hd1, hlen, htake, hdrop⟩

/-- Witness for C18: word 1 of an eight-byte buffer is inside it. -/
theorem image_super_defined_iff_witness :
    (image_super_r sampleDecls (image_call_load startCard [1, 2, 3, 4, 5, 6, 7, 8]).2 1).isSome
      ∧ (image_super_w sampleDecls (image_call_load startCard [1, 2, 3, 4, 5, 6, 7, 8]).2 1
          0x11223344 0xffffffff).isSome :=
  have h := image_super_defined_iff sampleDecls
    (image_call_load startCard [1, 2, 3, 4, 5, 6, 7, 8]).2 1 0x11223344 0xffffffff
  ⟨h.1.mpr ⟨[1, 2, 3, 4, 5, 6, 7, 8], rfl, by decide⟩,
    h.2.1.mpr ⟨[1, 2, 3, 4, 5, 6, 7, 8], rfl, by decide⟩⟩

/-! ## C15: the buffer and the tracked size -/

/-- C15 as stated fails: after a four-byte image has been loaded and
unloaded the buffer is still present with its four bytes and the tracked
size is 0. -/
theorem unload_keeps_buffer :
    (store_run sampleDecls sampleCard [StoreOp.load [1, 2, 3, 4], StoreOp.unload [1, 2, 3, 4]]).map
        (fun s => (s.m_image.m_data, s.m_image.m_size))
      = some (some [1, 2, 3, 4], 0)
      ∧ ¬ ((some [1, 2, 3, 4] : Option (List Byte)) = none
            ∨ ([1, 2, 3, 4] : List Byte).length = 0) := by
  decide

theorem store_op_consistent {D : Decls} {s s1 : nubus_image_device} {op : StoreOp}
    (h : store_consistent s.m_image) (hs : store_op D s op = some s1) :
    store_consistent s1.m_image := by
  cases op with
  | start file =>
    cases hs
    cases file <;> exact Or.inl rfl
  | load file =>
    cases hs
    simp only [image_call_load, call_load]
    split_ifs
    · exact Or.inr (Or.inl rfl)
    · exact Or.inr (Or.inr (by simp [fread_clear_length]))
  | unload file =>
    simp only [store_op, image_call_unload] at hs
    cases hu : call_unload s.m_image file with
    | none => simp [hu] at hs
    | some t =>
      simp only [hu, Option.map_some', Option.some.injEq] at hs
      subst hs
      exact Or.inr (Or.inl (call_unload_frame hu).1)
  | status_w data =>
    cases hs
    exact h
  | super_w o d m =>
    simp only [store_op] at hs
    have hf := image_super_w_frame hs
    obtain ⟨image, image1, hd, -, hd1, hlen, -, -⟩ := image_super_w_some hs
    rcases h with h | h | h
    · rw [hd] at h; cases h
    · exact Or.inr (Or.inl (hf.2.2.2.2.1.trans h))
    · refine Or.inr (Or.inr ?_)
      rw [hd1, hf.2.2.2.2.1, Option.map_some', hlen]
      rw [hd, Option.map_some'] at h
      exact h

theorem store_run_consistent (D : Decls) (ops : List StoreOp) :
    ∀ s s1 : nubus_image_device, store_consistent s.m_image → store_run D s ops = some s1 →
      store_consistent s1.m_image := by
  induction ops with
  | nil =>
    intro s s1 h hs
    cases hs
    exact h
  | cons op ops ih =>
    intro s s1 h hs
    simp only [store_run] at hs
    cases ho : store_op D s op with
    | none => simp [ho] at hs
    | some t =>
      simp only [ho] at hs
      exact ih t s1 (store_op_consistent h ho) hs

/-- C15 (amended). In every store state reachable from the freshly
constructed store by any sequence of device starts, loads (successful or
rejected), unloads, status writes and super-region writes, the buffer is
absent, or the tracked size is 0 (after an unload or a rejected load, which
keep the buffer), or the length of the buffer is exactly the tracked size. -/
theorem store_buffer_size (D : Decls) (ops : List StoreOp) (s s1 : nubus_image_device)
    (h0 : s.m_image = messimg_disk_image_device.init) (hs : store_run D s ops = some s1) :
    s1.m_image.m_data = none ∨ s1.m_image.m_size = 0
      ∨ s1.m_image.m_data.map List.length = some s1.m_image.m_size :=
  store_run_consistent D ops s s1 (by rw [h0]; exact Or.inl rfl) hs

/-- Witness for C15: the sample card after a load, a super-region write and
an unload. -/
theorem store_buffer_size_witness :
    sampleCard.m_image = messimg_disk_image_device.init
      ∧ store_run sampleDecls sampleCard
          [StoreOp.load [1, 2, 3, 4], StoreOp.super_w 0 0xaabbccdd 0xffffffff,
            StoreOp.unload [1, 2, 3, 4]] = some unloadedCard
      ∧ (unloadedCard.m_image.m_data = none ∨ unloadedCard.m_image.m_size = 0
        ∨ unloadedCard.m_image.m_data.map List.length = some unloadedCard.m_image.m_size) :=
  ⟨rfl, rfl, store_buffer_size sampleDecls
    [StoreOp.load [1, 2, 3, 4], StoreOp.super_w 0 0xaabbccdd 0xffffffff,
      StoreOp.unload [1, 2, 3, 4]]
    sampleCard unloadedCard rfl rfl⟩

/-! ## C12, C17: the name buffer -/

theorem set_take_drop (fn : List Byte) (off len : Nat) (x : Byte) (ys : List Byte)
    (h : off + 1 + len ≤ fn.length) :
    (fn.set off x).take (off + 1) ++ ys ++ (fn.set off x).drop (off + 1 + len)
      = fn.take off ++ (x :: ys) ++ fn.drop (off + (len + 1)) := by
  have hA : (fn.take off).length = off := by rw [List.length_take]; omega
  rw [List.set_eq_take_cons_drop x (by omega)]
  have split : List.take off fn ++ x :: List.drop (off + 1) fn
      = (List.take off fn ++ [x]) ++ List.drop (off + 1) fn := by simp
  have e1 : (List.take off fn ++ x :: List.drop (off + 1) fn).take (off + 1)
      = List.take off fn ++ [x] := by
    rw [split]
    exact List.take_left' (by simp [hA])
  have e2 : (List.take off fn ++ x :: List.drop (off + 1) fn).drop (off + 1 + len)
      = List.drop (off + (len + 1)) fn := by
    rw [split, show off + 1 + len = (off + 1) + len from rfl,
      ← List.drop_drop, List.drop_left' (by simp [hA]), List.drop_drop]
    congr 1
    omega
  rw [e1, e2]
  simp

theorem cstr_terminated (a rest : List Byte) (h : ∀ b ∈ a, b ≠ 0) :
    cstr (a ++ 0 :: rest) = a := by
  unfold cstr
  rw [List.takeWhile_append_of_pos (by simpa using h)]
  simp

/-- What a run of name-register writes that fits into the buffer does: the
low bytes of the values replace the bytes from the cursor on, and the cursor
moves past them. -/
theorem file_name_w_all_eq (vs : List Nat) : ∀ s : nubus_image_device,
    s.filectx.filenameoffset + vs.length ≤ s.filectx.filename.length →
    ∃ t, file_name_w_all s vs = some t
      ∧ t.filectx.filename = s.filectx.filename.take s.filectx.filenameoffset
          ++ vs.map byteOf ++ s.filectx.filename.drop (s.filectx.filenameoffset + vs.length)
      ∧ t.filectx.filenameoffset = s.filectx.filenameoffset + vs.length
      ∧ t.filectx.filename.length = s.filectx.filename.length := by
  induction vs with
  | nil =>
    intro s _
    exact ⟨s, rfl, by simp, rfl, rfl⟩
  | cons v vs ih =>
    intro s h
    simp only [List.length_cons] at h
    have hlt : s.filectx.filenameoffset < s.filectx.filename.length := by omega
    have h1 : file_name_w s v = some { s with filectx := { s.filectx with
        filename := s.filectx.filename.set s.filectx.filenameoffset (byteOf v)
        filenameoffset := s.filectx.filenameoffset + 1 } } := by
      unfold file_name_w; rw [if_pos hlt]
    obtain ⟨t, ht, hfn, hoff, hl⟩ := ih _ (show
      ({ s with filectx := { s.filectx with
        filename := s.filectx.filename.set s.filectx.filenameoffset (byteOf v)
        filenameoffset := s.filectx.filenameoffset + 1 } } : nubus_image_device).filectx.filenameoffset
        + vs.length ≤ ({ s with filectx := { s.filectx with
        filename := s.filectx.filename.set s.filectx.filenameoffset (byteOf v)
        filenameoffset := s.filectx.filenameoffset + 1 } } : nubus_image_device).filectx.filename.length
      by simp only [List.length_set]; omega)
    refine ⟨t, by simp only [file_name_w_all, h1, ht], ?_, ?_, ?_⟩
    · rw [hfn]
      simp only [List.map_cons, List.length_cons]
      exact set_take_drop _ _ _ _ _ (by omega)
    · rw [hoff]; simp only [List.length_cons]; omega
    · rw [hl]; simp only [List.length_set]

/-- C12 as stated fails: after the name `abc` was written and `FileClose`
(code 7) processed, the cursor is 0 but the buffer still starts with `abc`;
after the one byte `x` is then written, the path of the next `GetFile` or
`PutFile` is `./xbc`, not `./x`. -/
theorem file_close_keeps_name_bytes :
    (file_name_w_all startCard [97, 98, 99]).map
        (fun t => ((file_cmd_w sampleDecls true t 7).filectx.filenameoffset,
          (file_cmd_w sampleDecls true t 7).filectx.filename.take 4))
      = some (0, [97, 98, 99, 0])
      ∧ (file_name_w_all startCard [97, 98, 99]).bind
        (fun t => (file_name_w_all (file_cmd_w sampleDecls true t 7) [120]).map
          (fun u => fullpath sampleDecls u.filectx))
      = some [46, 47, 120, 98, 99] := by
  decide

/-- C12 (amended). `FileClose` sets the cursor of the name buffer to 0 and
leaves its bytes as they are. Name-register writes made afterwards replace the
leading bytes of the buffer and keep the rest, so the file name used by the
next `GetFile` or `PutFile` is exactly the non-zero bytes written after the
`FileClose` when the guest writes a zero byte after them. -/
theorem file_close_resets_cursor_only (D : Decls) (o : Bool) (s : nubus_image_device)
    (vs : List Nat) (hD : D.codes.Nodup) (hv : ∀ v ∈ vs, byteOf v ≠ 0)
    (hlen : vs.length + 1 ≤ s.filectx.filename.length) :
    (file_cmd_w D o s D.kFileCmdFileClose).filectx.filenameoffset = 0
      ∧ (file_cmd_w D o s D.kFileCmdFileClose).filectx.filename = s.filectx.filename
      ∧ (∃ t, file_name_w_all (file_cmd_w D o s D.kFileCmdFileClose) vs = some t
          ∧ t.filectx.filename = vs.map byteOf ++ s.filectx.filename.drop vs.length)
      ∧ (∃ t, file_name_w_all (file_cmd_w D o s D.kFileCmdFileClose) (vs ++ [0]) = some t
          ∧ cstr t.filectx.filename = vs.map byteOf) := by
  simp only [Decls.codes, List.nodup_cons, List.mem_cons, List.mem_singleton, not_or,
    List.not_mem_nil, or_false] at hD
  obtain ⟨⟨-, -, -, -, -, h1, -⟩, ⟨-, -, -, -, h2, -⟩, ⟨-, -, -, h3, -⟩,
    ⟨-, -, h4, -⟩, ⟨-, h5, -⟩, ⟨h6, -⟩, -⟩ := hD
  have hoff : (file_cmd_w D o s D.kFileCmdFileClose).filectx.filenameoffset = 0 := by
    simp [file_cmd_w, Ne.symm h1, Ne.symm h2, Ne.symm h3, Ne.symm h4, Ne.symm h5, Ne.symm h6]
  have hfn : (file_cmd_w D o s D.kFileCmdFileClose).filectx.filename = s.filectx.filename := by
    simp [file_cmd_w, Ne.symm h1, Ne.symm h2, Ne.symm h3, Ne.symm h4, Ne.symm h5, Ne.symm h6]
  refine ⟨hoff, hfn, ?_, ?_⟩
  · obtain ⟨t, ht, hf, -, -⟩ := file_name_w_all_eq vs (file_cmd_w D o s D.kFileCmdFileClose)
      (by rw [hoff, hfn]; omega)
    refine ⟨t, ht, ?_⟩
    rw [hf, hoff, hfn]
    simp
  · obtain ⟨t, ht, hf, -, -⟩ := file_name_w_all_eq (vs ++ [0])
      (file_cmd_w D o s D.kFileCmdFileClose)
      (by rw [hoff, hfn, List.length_append]; simp only [List.length_singleton]; omega)
    refine ⟨t, ht, ?_⟩
    rw [hf, hoff, hfn]
    have hz : byteOf 0 = 0 := rfl
    simp only [List.take_zero, List.nil_append, List.map_append, List.map_cons, List.map_nil,
      hz, List.append_assoc, List.singleton_append]
    exact cstr_terminated _ _ (by
      intro b hb
      obtain ⟨v, hvm, rfl⟩ := List.mem_map.mp hb
      exact hv v hvm)

/-- Witness for C12: the name `x` with its terminator written after a
`FileClose` on a card whose buffer holds `abc`. -/
theorem file_close_resets_cursor_only_witness :
    sampleDecls.codes.Nodup ∧ (∀ v ∈ [120], byteOf v ≠ 0)
      ∧ (file_cmd_w sampleDecls true
          { startCard with filectx := { startCard.filectx with
            filename := [97, 98, 99, 0, 0, 0, 0, 0], filenameoffset := 3 } }
          sampleDecls.kFileCmdFileClose).filectx.filenameoffset = 0
      ∧ (∃ t, file_name_w_all (file_cmd_w sampleDecls true
          { startCard with filectx := { startCard.filectx with
            filename := [97, 98, 99, 0, 0, 0, 0, 0], filenameoffset := 3 } }
          sampleDecls.kFileCmdFileClose) ([120] ++ [0]) = some t
          ∧ cstr t.filectx.filename = [120].map byteOf) :=
  have h := file_close_resets_cursor_only sampleDecls true
    { startCard with filectx := { startCard.filectx with
      filename := [97, 98, 99, 0, 0, 0, 0, 0], filenameoffset := 3 } }
    [120] (by decide) (by decide) (by decide)
  ⟨by decide, by decide, h.1, h.2.2.2⟩

/-- C17 as stated fails: nothing compares the cursor with the capacity. After
128 name-register writes on the started card the cursor is 128, and one more
write stores outside the 128-byte buffer, which the embedding renders as
`none` (undefined behaviour) rather than an ignored write. -/
theorem file_name_w_unchecked :
    startCard.filectx.filename.length = 128
      ∧ (file_name_w_all startCard (List.replicate 128 65)).map
          (fun t => t.filectx.filenameoffset) = some 128
      ∧ (file_name_w_all startCard (List.replicate 129 65)).isSome = false := by
  decide

/-- C17 (amended). A run of name-register writes that fits between the cursor
and the end of the name buffer stores the low byte of each value at the
cursor and advances the cursor by one each time, so the cursor stays within
the capacity and the length of the buffer does not change. A write issued when
the cursor is at (or beyond) the capacity is not ignored: it is unchecked and
stores outside the buffer, which is undefined behaviour. -/
theorem file_name_w_within_capacity (s : nubus_image_device) (vs : List Nat) (v : Nat) :
    (s.filectx.filenameoffset + vs.length ≤ s.filectx.filename.length →
        ∃ t, file_name_w_all s vs = some t
          ∧ t.filectx.filename = s.filectx.filename.take s.filectx.filenameoffset
              ++ vs.map byteOf
              ++ s.filectx.filename.drop (s.filectx.filenameoffset + vs.length)
          ∧ t.filectx.filenameoffset = s.filectx.filenameoffset + vs.length
          ∧ t.filectx.filenameoffset ≤ t.filectx.filename.length
          ∧ t.filectx.filename.length = s.filectx.filename.length)
      ∧ (s.filectx.filename.length ≤ s.filectx.filenameoffset → file_name_w s v = none) := by
  constructor
  · intro h
    obtain ⟨t, ht, hf, ho, hl⟩ := file_name_w_all_eq vs s h
    exact ⟨t, ht, hf, ho, by rw [ho, hl]; exact h, hl⟩
  · intro h
    unfold file_name_w
    rw [if_neg (by omega)]

/-- Witness for C17: three writes on the started card, and one write on a
card whose cursor is at the end of an eight-byte buffer. -/
theorem file_name_w_within_capacity_witness :
    startCard.filectx.filenameoffset + [97, 98, 99].length ≤ startCard.filectx.filename.length
      ∧ (∃ t, file_name_w_all startCard [97, 98, 99] = some t
          ∧ t.filectx.filenameoffset = startCard.filectx.filenameoffset + [97, 98, 99].length)
      ∧ file_name_w { sampleCard with filectx := { sampleCard.filectx with filenameoffset := 8 } }
          65 = none :=
  ⟨by decide,
    (((file_name_w_within_capacity startCard [97, 98, 99] 65).1 (by decide)).imp
      fun _ h => ⟨h.1, h.2.2.1⟩),
    (file_name_w_within_capacity
      { sampleCard with filectx := { sampleCard.filectx with filenameoffset := 8 } }
      [] 65).2 (by decide)⟩

/-! ## C16: reading the selected name -/

/-- C16. On the started card the directory is `.` and the selected path is
empty. After the command 8 the name-register read computes the bound
`0 - 1 - 1` in `size_t`, which wraps to a huge value, so the guard passes and
the read indexes position 2 of the empty path: outside it, which the embedding
renders as `none` (undefined behaviour). -/
theorem file_name_r_empty_path :
    (file_cmd_w sampleDecls true startCard 8).importctx.file = []
      ∧ (file_cmd_w sampleDecls true startCard 8).importctx.dir = [46]
      ∧ (file_cmd_w sampleDecls true startCard 8).importctx.name_offset = 0
      ∧ (file_cmd_w sampleDecls true startCard 8).lastcmd = 8
      ∧ (file_name_r sampleDecls (file_cmd_w sampleDecls true startCard 8)).isSome = false := by
  decide

/-! ## C14: transferred count and declared length of the direct channel -/

theorem file_cmd_w_bounded (D : Decls) (o : Bool) (s : nubus_image_device) (d : Nat)
    (h : filectx_bounded s) : filectx_bounded (file_cmd_w D o s d) := by
  unfold filectx_bounded at h ⊢
  unfold file_cmd_w
  simp only
  split_ifs
  · exact h
  · split
    · intro _; exact Nat.zero_le _
    · intro hc; exact absurd rfl hc
  · split
    · intro _; exact Nat.zero_le _
    · intro hc; exact absurd rfl hc
  · intro hc; exact absurd rfl hc
  · exact h
  · exact h
  · exact h

theorem file_data_w_bounded {D : Decls} {wa : Nat} {s t : nubus_image_device} {d : Nat}
    (h : filectx_bounded s) (ht : file_data_w D wa s d = some t) : filectx_bounded t := by
  unfold filectx_bounded at h ⊢
  unfold file_data_w at ht
  split at ht
  · cases ht; exact h
  · simp only at ht
    split_ifs at ht <;> cases ht <;> simp only <;> intro hc
    all_goals first
      | exact absurd rfl hc
      | omega

/-- One register access keeps the bound of the direct channel, provided that
it is not a length write made while the handle is open. -/
theorem access_bounded {D : Decls} {e : Env} {s : nubus_image_device} {a : Access}
    {r : Nat × nubus_image_device} (hal : len_w_when_closed s a = true)
    (h : filectx_bounded s) (hr : access D e s a = some r) : filectx_bounded r.2 := by
  cases a with
  | image_r => cases hr; exact h
  | image_w d => cases hr; exact h
  | image_status_r => cases hr; exact h
  | image_status_w d => cases hr; exact h
  | file_cmd_r =>
    simp only [access, Option.some.injEq] at hr
    subst hr
    unfold filectx_bounded at h ⊢
    rw [(file_cmd_r_frame D _ _ s).2.1]
    exact h
  | file_cmd_w d =>
    simp only [access, Option.some.injEq] at hr
    subst hr
    exact file_cmd_w_bounded D _ s d h
  | file_data_r =>
    simp only [access, Option.some.injEq] at hr
    subst hr
    unfold filectx_bounded at h ⊢
    rw [(file_data_r_frame D _ s).2.1]
    exact h
  | file_data_w d =>
    simp only [access] at hr
    cases ht : file_data_w D e.write_accept s d with
    | none => simp [ht] at hr
    | some t =>
      simp only [ht, Option.map_some', Option.some.injEq] at hr
      subst hr
      exact file_data_w_bounded h ht
  | file_len_r => cases hr; exact h
  | file_len_w d =>
    cases hr
    simp only [len_w_when_closed, Option.isNone_iff_eq_none] at hal
    intro hc
    exact absurd hal hc
  | file_name_r =>
    simp only [access] at hr
    unfold filectx_bounded at h ⊢
    rw [(file_name_r_frame hr).2.1]
    exact h
  | file_name_w d =>
    simp only [access] at hr
    cases ht : file_name_w s d with
    | none => simp [ht] at hr
    | some t =>
      simp only [ht, Option.map_some', Option.some.injEq] at hr
      subst hr
      have hf := file_name_w_frame ht
      unfold filectx_bounded at h ⊢
      simp only
      rw [hf.2.2.2.2.1, hf.2.2.2.2.2.1, hf.2.2.2.2.2.2]
      exact h
  | mousepos_r => cases hr; exact h
  | mousepos_w d => cases hr; exact h
  | image_super_r o =>
    simp only [access] at hr
    cases ht : image_super_r D s o with
    | none => simp [ht] at hr
    | some t =>
      simp only [ht, Option.map_some', Option.some.injEq] at hr
      subst hr
      exact h
  | image_super_w o d m =>
    simp only [access] at hr
    cases ht : image_super_w D s o d m with
    | none => simp [ht] at hr
    | some t =>
      simp only [ht, Option.map_some', Option.some.injEq] at hr
      subst hr
      unfold filectx_bounded at h ⊢
      simp only
      rw [(image_super_w_frame ht).1]
      exact h

theorem run_bounded (D : Decls) (tr : List (Env × Access)) :
    ∀ s t : nubus_image_device, filectx_bounded s → run D len_w_when_closed s tr = some t →
      filectx_bounded t := by
  induction tr with
  | nil =>
    intro s t h ht
    cases ht
    exact h
  | cons ea tr ih =>
    intro s t h ht
    simp only [run] at ht
    split_ifs at ht with hal
    cases ha : access D ea.1 s ea.2 with
    | none => simp [ha] at ht
    | some r =>
      simp only [ha] at ht
      exact ih r.2 t (access_bounded hal h ha) ht

/-- C14 as stated fails: from the started card, the name `a`, a length write
of 8, `PutFile` (code 6), one data write and a length write of 2 lead to a state
whose handle is open with transferred count 4 above the declared length 2; the
next data write computes the count `2 - 4`, which wraps to 0xFFFFFFFE, and
reads past the four bytes of the word (undefined behaviour, `none`). -/
theorem file_len_w_breaks_bound :
    (run sampleDecls any_access startCard
        [(sampleEnv, Access.file_name_w 97), (sampleEnv, Access.file_name_w 0),
          (sampleEnv, Access.file_len_w 8), (sampleEnv, Access.file_cmd_w 6),
          (sampleEnv, Access.file_data_w 0x01020304), (sampleEnv, Access.file_len_w 2)]).map
        (fun s => (s.filectx.fd.isSome, s.filectx.bytecount, s.filectx.filelen))
      = some (true, 4, 2)
      ∧ (run sampleDecls any_access startCard
        [(sampleEnv, Access.file_name_w 97), (sampleEnv, Access.file_name_w 0),
          (sampleEnv, Access.file_len_w 8), (sampleEnv, Access.file_cmd_w 6),
          (sampleEnv, Access.file_data_w 0x01020304), (sampleEnv, Access.file_len_w 2),
          (sampleEnv, Access.file_data_w 0)]).isSome = false := by
  decide

/-- C14 (amended). In every card state reachable from the start state by a
sequence of register accesses in which the length register is written only
while the direct-channel handle is closed, the transferred count is at most
the declared length whenever the handle is open. -/
theorem filectx_bounded_reachable (D : Decls) (s0 t : nubus_image_device)
    (tr : List (Env × Access))
    (ht : run D len_w_when_closed (device_start D s0) tr = some t)
    (hfd : t.filectx.fd ≠ none) : t.filectx.bytecount ≤ t.filectx.filelen :=
  run_bounded D tr (device_start D s0) t (fun hc => absurd rfl hc) ht hfd

/-- Witness for C14: the name `a`, a length write of 8, `PutFile` and one data
write on the sample card leave the handle open with 4 of 8 bytes transferred. -/
theorem filectx_bounded_reachable_witness :
    ∃ t, run sampleDecls len_w_when_closed (device_start sampleDecls sampleCard)
        [(sampleEnv, Access.file_name_w 97), (sampleEnv, Access.file_name_w 0),
          (sampleEnv, Access.file_len_w 8), (sampleEnv, Access.file_cmd_w 6),
          (sampleEnv, Access.file_data_w 0x01020304)] = some t
      ∧ t.filectx.fd ≠ none ∧ t.filectx.bytecount ≤ t.filectx.filelen :=
  ⟨_, rfl, by decide, filectx_bounded_reachable sampleDecls sampleCard _
    [(sampleEnv, Access.file_name_w 97), (sampleEnv, Access.file_name_w 0),
          (sampleEnv, Access.file_len_w 8), (sampleEnv, Access.file_cmd_w 6),
      (sampleEnv, Access.file_data_w 0x01020304)] rfl (by decide)⟩

/-! ## C2, C10: uploading through the direct channel -/

end NubusImage
